import Mathlib

/-!
Verification of the SPEED typing application (SkillUPtypeingApp).

This file gives a shallow embedding of the parts of the repository that the
verified properties are about:

* `models/difficulty.py` — the `Difficulty` enumeration;
* `game/word_source_loader.py` — file decoding/parsing, search paths,
  built-in fallback word lists;
* `speed_word_generator.py` — the seeded `WordGenerator` and its five
  generation strategies;
* `game/performance_calculator.py` — WPM and accuracy formulas;
* `game/database_manager.py` — the score table with its top-50 retention
  policy and leaderboard query;
* `game/speed_engine.py` — the session state machine.

Modelling conventions:

* Python `float` arithmetic is modelled by exact rational arithmetic (`ℚ`);
  Python `int(x)` on the non-negative values occurring here is `⌊x⌋`.
* `random.Random(seed)` is modelled by an abstract deterministic generator
  state (`Nat`) advanced by a fixed congruential step.  `random.sample`
  draws positions without replacement, and `random.shuffle` produces a
  permutation; none of the verified properties depend on the concrete
  numeric stream, only on determinism and on those structural facts.
* Fallible Python code (raising) is modelled with `Except`; every branch
  that raises does so before the shared random state is advanced, so a
  caller that catches the exception observes the state unchanged.
-/

namespace Speed

/-- `models/difficulty.py`: `class Difficulty(Enum)` with the four levels
`simple`, `medium`, `hard`, `extra_hard`. -/
inductive Difficulty where
  | simple
  | medium
  | hard
  | extra_hard
  deriving DecidableEq, Repr

/-- `word_source_loader.py` `_get_fallback_words`: the `base_words` list. -/
def baseWords : List String :=
  ["the", "and", "for", "are", "but", "not", "you", "all", "can", "had",
   "her", "was", "one", "our", "out", "day", "get", "has", "him", "his",
   "how", "man", "new", "now", "old", "see", "two", "way", "who", "boy"]

/-- `word_source_loader.py` `_get_fallback_words`: the `medium_words` list. -/
def mediumWords : List String :=
  ["about", "after", "again", "before", "being", "below", "could", "every",
   "first", "found", "great", "group", "hand", "head", "help", "here"]

/-- `word_source_loader.py` `_get_fallback_words`: the `hard_words` list. -/
def hardWords : List String :=
  ["ability", "absence", "academy", "account", "achieve", "acquire", "address",
   "advance", "against", "already", "another", "anxiety", "anybody", "anymore",
   "anywhere", "approve", "arrange", "article", "attempt", "attract", "average"]

/-- `word_source_loader.py` `_get_fallback_words`: the `extra_hard_words` list. -/
def extraHardWords : List String :=
  ["absolutely", "accelerate", "accessible", "accomplish", "accordance", "accumulate",
   "achievement", "acknowledge", "additional", "administration", "advantage", "adventure",
   "advertising", "afternoon", "aggressive", "algorithm", "alternative", "ambassador",
   "anniversary", "announcement", "application", "appointment", "appreciate", "appropriate"]

/-- `word_source_loader.py` `_get_fallback_words(difficulty)`: the nested
fallback lists returned when no word file is available. -/
def fallbackWords : Difficulty → List String
  | .simple => baseWords
  | .medium => baseWords ++ mediumWords
  | .hard => baseWords ++ mediumWords ++ hardWords
  | .extra_hard => baseWords ++ mediumWords ++ hardWords ++ extraHardWords

/-! ## The seeded pseudo-random source

`speed_word_generator.py` line 26: `self._random = random.Random(seed)`.
The generator state is modelled as a natural number advanced by a fixed
linear-congruential step; `random.Random(seed)` derives the initial state
deterministically from the integer seed. -/

/-- One step of the modelled pseudo-random generator. -/
def rngNext (s : Nat) : Nat :=
  (6364136223846793005 * s + 1442695040888963407) % (2 ^ 64)

/-- The deterministic state `random.Random(seed)` starts from. -/
def rngInit (seed : Int) : Nat :=
  (seed.natAbs + 982451653) % (2 ^ 64)

/-- `random.sample(pool, k)` (and, at `k = pool.length`,
`random.shuffle(pool)`): repeatedly picks a position of the remaining pool
and removes it, `k` times — a draw of `k` positions without replacement. -/
def sampleAux (pool : List String) (k : Nat) (rng : Nat) : List String × Nat :=
  match k with
  | 0 => ([], rng)
  | Nat.succ k2 =>
    if h : 0 < pool.length then
      let j : Fin pool.length := ⟨rng % pool.length, Nat.mod_lt rng h⟩
      let rec1 := sampleAux (pool.eraseIdx j.1) k2 (rngNext rng)
      (pool.get j :: rec1.1, rec1.2)
    else ([], rng)

/-- `random.sample(pool, k)`. -/
def sample (pool : List String) (k : Nat) (rng : Nat) : List String × Nat :=
  sampleAux pool k rng

/-- `random.shuffle(pool)` (returning the shuffled copy). -/
def shuffle (pool : List String) (rng : Nat) : List String × Nat :=
  sampleAux pool pool.length rng

theorem getElem_cons_eraseIdx_perm (l : List String) (j : Nat) (h : j < l.length) :
    (l.get ⟨j, h⟩ :: l.eraseIdx j).Perm l := by
  have hdrop : l.get ⟨j, h⟩ :: l.drop (j + 1) = l.drop j := List.cons_get_drop_succ
  have hsplit : l = l.take j ++ l.get ⟨j, h⟩ :: l.drop (j + 1) := by
    rw [hdrop, List.take_append_drop]
  have h1 : l.get ⟨j, h⟩ :: l.eraseIdx j
      = l.get ⟨j, h⟩ :: (l.take j ++ l.drop (j + 1)) := by
    rw [List.eraseIdx_eq_take_drop_succ]
  have h2 : (l.get ⟨j, h⟩ :: (l.take j ++ l.drop (j + 1))).Perm
      (l.take j ++ l.get ⟨j, h⟩ :: l.drop (j + 1)) := List.perm_middle.symm
  have h3 : (l.take j ++ l.get ⟨j, h⟩ :: l.drop (j + 1)).Perm l := by
    rw [← hsplit]
  rw [h1]
  exact h2.trans h3

theorem sampleAux_length (pool : List String) (k : Nat) (rng : Nat) :
    (sampleAux pool k rng).1.length = min k pool.length := by
  induction k generalizing pool rng with
  | zero => simp [sampleAux]
  | succ k2 ih =>
    by_cases h : 0 < pool.length
    · have herase : (pool.eraseIdx (rng % pool.length)).length + 1 = pool.length :=
        List.length_eraseIdx_add_one (Nat.mod_lt rng h)
      simp only [sampleAux, dif_pos h, List.length_cons, ih]
      omega
    · have h0 : pool.length = 0 := by omega
      simp [sampleAux, dif_neg h, h0]

theorem sampleAux_subset (pool : List String) (k : Nat) (rng : Nat) :
    ∀ x ∈ (sampleAux pool k rng).1, x ∈ pool := by
  induction k generalizing pool rng with
  | zero => simp [sampleAux]
  | succ k2 ih =>
    by_cases h : 0 < pool.length
    · simp only [sampleAux, dif_pos h, List.mem_cons]
      intro x hx
      rcases hx with hx | hx
      · rw [hx]; exact List.get_mem pool _ _
      · exact (List.eraseIdx_sublist pool (rng % pool.length)).subset (ih _ _ x hx)
    · simp [sampleAux, dif_neg h]

theorem sampleAux_perm (k : Nat) (pool : List String) (rng : Nat)
    (hk : pool.length = k) : (sampleAux pool k rng).1.Perm pool := by
  induction k generalizing pool rng with
  | zero =>
    have : pool = [] := List.length_eq_zero.mp hk
    simp [this, sampleAux]
  | succ k2 ih =>
    have h : 0 < pool.length := by omega
    have hj : rng % pool.length < pool.length := Nat.mod_lt rng h
    have herase : (pool.eraseIdx (rng % pool.length)).length = k2 := by
      have := List.length_eraseIdx_add_one hj
      omega
    simp only [sampleAux, dif_pos h]
    exact ((ih _ (rngNext rng) herase).cons _).trans
      (getElem_cons_eraseIdx_perm pool _ hj)

theorem sampleAux_nodup (pool : List String) (k : Nat) (rng : Nat)
    (hnd : pool.Nodup) : (sampleAux pool k rng).1.Nodup := by
  induction k generalizing pool rng with
  | zero => simp [sampleAux]
  | succ k2 ih =>
    by_cases h : 0 < pool.length
    · have hj : rng % pool.length < pool.length := Nat.mod_lt rng h
      have hperm := getElem_cons_eraseIdx_perm pool _ hj
      have hcons : (pool.get ⟨rng % pool.length, hj⟩ ::
          pool.eraseIdx (rng % pool.length)).Nodup := hperm.symm.nodup hnd
      have hnotmem : pool.get ⟨rng % pool.length, hj⟩ ∉
          pool.eraseIdx (rng % pool.length) := (List.nodup_cons.mp hcons).1
      have hndE : (pool.eraseIdx (rng % pool.length)).Nodup := (List.nodup_cons.mp hcons).2
      simp only [sampleAux, dif_pos h]
      refine List.nodup_cons.mpr ⟨fun hmem => hnotmem ?_, ih _ _ hndE⟩
      exact sampleAux_subset _ _ _ _ hmem
    · simp [sampleAux, dif_neg h]

theorem shuffle_perm (pool : List String) (rng : Nat) :
    (shuffle pool rng).1.Perm pool :=
  sampleAux_perm pool.length pool rng rfl

/-! ## `WordGenerator.generate_words` (`speed_word_generator.py` lines 113-170) -/

/-- The `while remaining_count > 0` loop of `generate_words` for the case
`count > len(available_words)`: each pass takes a batch of size
`min(remaining, len(pool))` — a full shuffled copy when the batch is the
whole pool, otherwise a `random.sample` — until `remaining` words have been
accumulated.  The loop removes at least one word per pass, so a fuel equal
to the initial `remaining` suffices; the fuel never runs out on the calls
the program makes (proved below). -/
def fillWordsAux (pool : List String) : Nat → Nat → Nat → List String × Nat
  | _, 0, rng => ([], rng)
  | 0, Nat.succ _, rng => ([], rng)
  | Nat.succ fuel, Nat.succ r, rng =>
    if pool.length = 0 then ([], rng)
    else
      let batchSize := min (r + 1) pool.length
      let batch :=
        if batchSize = pool.length then shuffle pool rng
        else sample pool batchSize rng
      let rest := fillWordsAux pool fuel (r + 1 - batchSize) batch.2
      (batch.1 ++ rest.1, rest.2)

/-- The accumulation loop of `generate_words` with adequate fuel. -/
def fillWords (pool : List String) (remaining : Nat) (rng : Nat) : List String × Nat :=
  fillWordsAux pool remaining remaining rng

theorem fillWordsAux_spec (pool : List String) (hpool : 0 < pool.length) :
    ∀ (fuel remaining rng : Nat), remaining ≤ fuel →
      (fillWordsAux pool fuel remaining rng).1.length = remaining ∧
      ∀ x ∈ (fillWordsAux pool fuel remaining rng).1, x ∈ pool := by
  intro fuel
  induction fuel with
  | zero =>
    intro remaining rng hle
    have : remaining = 0 := by omega
    subst this
    simp [fillWordsAux]
  | succ f ih =>
    intro remaining rng hle
    match remaining with
    | 0 => simp [fillWordsAux]
    | Nat.succ r =>
      have hne : ¬ pool.length = 0 := by omega
      have hbatch : 1 ≤ min (r + 1) pool.length := by omega
      have hrec := ih (r + 1 - min (r + 1) pool.length) ((if min (r + 1) pool.length = pool.length then shuffle pool rng
        else sample pool (min (r + 1) pool.length) rng).2) (by omega)
      constructor
      · simp only [fillWordsAux, if_neg hne, List.length_append, hrec.1]
        by_cases hfull : min (r + 1) pool.length = pool.length
        · rw [if_pos hfull, (shuffle_perm pool rng).length_eq]
          omega
        · rw [if_neg hfull]
          show (sample pool (min (r + 1) pool.length) rng).1.length + _ = _
          rw [sample, sampleAux_length]
          omega
      · simp only [fillWordsAux, if_neg hne]
        intro x hx
        rcases List.mem_append.mp hx with hx | hx
        · by_cases hfull : min (r + 1) pool.length = pool.length
          · rw [if_pos hfull] at hx
            exact (shuffle_perm pool rng).subset hx
          · rw [if_neg hfull] at hx
            exact sampleAux_subset _ _ _ x hx
        · exact hrec.2 x hx

/-- `WordGenerator.generate_words(difficulty, count)`, with the candidate
list `available_words` (obtained from the source loader) passed explicitly.
Raising is modelled with `Except`; on success the advanced random state is
returned alongside the words. -/
def generateWords (pool : List String) (count : Int) (rng : Nat) :
    Except String (List String × Nat) :=
  if count ≤ 0 then .error "Count must be positive"
  else if pool.length = 0 then .error "No words available for difficulty"
  else if count.toNat ≤ pool.length then .ok (sample pool count.toNat rng)
  else
    let filled := fillWords pool count.toNat rng
    .ok (shuffle filled.1 filled.2)

theorem generateWords_ok (pool : List String) (count : Int) (rng : Nat)
    (hpool : pool ≠ []) (hcount : 0 < count) :
    ∃ ws rng2, generateWords pool count rng = .ok (ws, rng2) ∧
      ws.length = count.toNat ∧ ∀ x ∈ ws, x ∈ pool := by
  have hnotle : ¬ count ≤ 0 := by omega
  have hlen : ¬ pool.length = 0 := fun h => hpool (List.length_eq_zero.mp h)
  by_cases hle : count.toNat ≤ pool.length
  · refine ⟨(sample pool count.toNat rng).1, (sample pool count.toNat rng).2, ?_, ?_, ?_⟩
    · simp [generateWords, hnotle, hlen, hle]
    · rw [sample, sampleAux_length]; omega
    · exact fun x hx => sampleAux_subset _ _ _ x hx
  · have hpos : 0 < pool.length := by omega
    have hfill := fillWordsAux_spec pool hpos count.toNat count.toNat rng le_rfl
    refine ⟨(shuffle (fillWords pool count.toNat rng).1 (fillWords pool count.toNat rng).2).1,
      (shuffle (fillWords pool count.toNat rng).1 (fillWords pool count.toNat rng).2).2, ?_, ?_, ?_⟩
    · simp [generateWords, hnotle, hlen, hle]
    · rw [(shuffle_perm _ _).length_eq]
      exact hfill.1
    · intro x hx
      exact hfill.2 x ((shuffle_perm _ _).subset hx)

theorem generateWords_err_nonpos (pool : List String) (count : Int) (rng : Nat)
    (hcount : count ≤ 0) :
    generateWords pool count rng = .error "Count must be positive" := by
  simp [generateWords, hcount]

/-! ## `WordGenerator.generate_for_session` (lines 172-207) -/

/-- `generate_for_session(difficulty, duration_seconds, target_wpm)`: the
base word count `int(duration_minutes * target_wpm)` is truncated to an
integer first, then the 10% session buffer is applied and truncated again,
with a floor of 10 words. -/
def generateForSession (pool : List String) (durationSeconds targetWpm : Int) (rng : Nat) :
    Except String (List String × Nat) :=
  if durationSeconds ≤ 0 then .error "Duration must be positive"
  else if targetWpm ≤ 0 then .error "Target WPM must be positive"
  else
    let durationMinutes : ℚ := (durationSeconds : ℚ) / 60
    let baseWordCount : Int := ⌊durationMinutes * (targetWpm : ℚ)⌋
    let bufferMultiplier : ℚ := 1 + (10 : ℚ) / 100
    let totalWordCount : Int := ⌊(baseWordCount : ℚ) * bufferMultiplier⌋
    generateWords pool (max totalWordCount 10) rng

/-! ## `WordGenerator.generate_for_time_selection` (lines 209-268) -/

/-- `self.time_options = [1, 2, 3, 5, 7, 10]`. -/
def timeOptions : List Int := [1, 2, 3, 5, 7, 10]

/-- `self.word_counts = [70, 140, 210, 350, 490, 700]`. -/
def timeWordCounts : List Int := [70, 140, 210, 350, 490, 700]

/-- `calculate_word_count_for_time(minutes)`: validates the minute option
and looks the count up in `dict(zip(time_options, word_counts))`. -/
def calculateWordCountForTime (minutes : Int) : Except String Int :=
  if minutes ∈ timeOptions then
    match (timeOptions.zip timeWordCounts).lookup minutes with
    | some n => .ok n
    | none => .error "Minutes must be one of the time options"
  else .error "Minutes must be one of the time options"

/-- `generate_for_time_selection(difficulty, minutes)`. -/
def generateForTimeSelection (pool : List String) (minutes : Int) (rng : Nat) :
    Except String (List String × Nat) :=
  if minutes ∈ timeOptions then
    match calculateWordCountForTime minutes with
    | .ok wordCount => generateWords pool wordCount rng
    | .error e => .error e
  else .error "Minutes must be one of the time options"

/-! ## `WordGenerator.generate_paragraph` (lines 270-349) -/

/-- The inner `while word_index < len(available_words)` loop of
`generate_paragraph`: greedily extends `current_line` with the next word as
long as `current_line + " " + word` (or the word itself on an empty line)
stays within the character limit; stops at the first word that does not fit
or when the buffer is exhausted.  The unconsumed words are returned. -/
def packLineAux (maxChars : Nat) (currentLine : String) (ws : List String) :
    String × List String :=
  match ws with
  | [] => (currentLine, [])
  | w :: rest =>
    let testLine := if currentLine = "" then w else currentLine ++ " " ++ w
    if testLine.length ≤ maxChars then packLineAux maxChars testLine rest
    else (currentLine, w :: rest)

/-- The `for line_num in range(lines)` loop of `generate_paragraph`,
with the buffer of available words kept as the queue of not-yet-consumed
words (Python keeps an index into a list that is only ever extended at the
end, which is the same thing).  `remLines + 1` equals `lines - line_num`.
The first branch is the source's `continue` path (empty line with an
exhausted buffer): it generates more words and moves to the next line
index WITHOUT appending a line. -/
def paraLoop (pool : List String) (estPerLine : Int) (maxChars : Nat) :
    Nat → List String → Nat → List String → Except String (List String × Nat)
  | 0, _, rng, acc => .ok (acc.reverse, rng)
  | Nat.succ remLines, ws, rng, acc =>
    let packed := packLineAux maxChars "" ws
    if packed.1 = "" ∧ packed.2 = [] then
      match generateWords pool (estPerLine * 2) rng with
      | .error e => .error e
      | .ok res => paraLoop pool estPerLine maxChars remLines res.1 res.2 acc
    else
      let line := if packed.1 = "" then packed.2.headD "" else packed.1
      let rest := if packed.1 = "" then packed.2.tail else packed.2
      if rest = [] ∧ remLines ≠ 0 then
        match generateWords pool (estPerLine * ((remLines : Int) + 1)) rng with
        | .error e => .error e
        | .ok res => paraLoop pool estPerLine maxChars remLines res.1 res.2 (line :: acc)
      else paraLoop pool estPerLine maxChars remLines rest rng (line :: acc)

/-- `generate_paragraph(difficulty, lines, max_line_chars)`. -/
def generateParagraph (pool : List String) (lines maxLineChars : Int) (rng : Nat) :
    Except String (List String × Nat) :=
  if lines ≤ 0 then .error "Lines must be positive"
  else if maxLineChars ≤ 0 then .error "Max line chars must be positive"
  else
    let avgWordLength : Int := 6
    let estimatedWordsPerLine : Int := max 1 (maxLineChars / avgWordLength)
    let totalEstimatedWords : Int := lines * estimatedWordsPerLine
    let bufferWords : Int := ⌊(totalEstimatedWords : ℚ) * (3 / 2 : ℚ)⌋
    match generateWords pool bufferWords rng with
    | .error e => .error e
    | .ok res => paraLoop pool estimatedWordsPerLine maxLineChars.toNat lines.toNat res.1 res.2 []

/-! ## `WordGenerator.generate_mixed` (lines 351-442)

The Python weight dictionary is modelled as its insertion-ordered item
list (dictionary keys are unique, and `dict.items()` iterates in insertion
order).  Sorting `fractional_parts` with `sort(reverse=True)` compares
`(float, Difficulty)` tuples: when two fractional parts are equal the
tuple comparison falls through to `Difficulty.__lt__`, which plain `Enum`
does not define, so the sort raises `TypeError`.  The model therefore
fails whenever two fractional parts are equal (with at least two entries
the sort always compares the tied pair), and otherwise produces the unique
descending order. -/

/-- Descending comparison on `(fractional_part, difficulty)` tuples by
fractional part; only total when fractional parts are pairwise distinct. -/
def fracDescLe (a b : ℚ × Difficulty) : Prop := b.1 ≤ a.1

instance : DecidableRel fracDescLe := fun a b => inferInstanceAs (Decidable (b.1 ≤ a.1))

/-- The local `normalized_weights` of `generate_mixed` (line 384). -/
def normalizedWeights (weights : List (Difficulty × ℚ)) : List (Difficulty × ℚ) :=
  weights.map (fun p => (p.1, p.2 / (weights.map Prod.snd).sum))

/-- The proportional floor allocation `difficulty_counts` (lines 387-394). -/
def mixedBaseCounts (weights : List (Difficulty × ℚ)) (totalCount : Int) :
    List (Difficulty × Int) :=
  (normalizedWeights weights).map (fun p => (p.1, ⌊(totalCount : ℚ) * p.2⌋))

/-- `remaining = total_count - allocated_count` (line 397). -/
def mixedRemaining (weights : List (Difficulty × ℚ)) (totalCount : Int) : Int :=
  totalCount - ((mixedBaseCounts weights totalCount).map Prod.snd).sum

/-- The `fractional_parts` list (lines 400-404). -/
def mixedFracParts (weights : List (Difficulty × ℚ)) (totalCount : Int) :
    List (ℚ × Difficulty) :=
  (normalizedWeights weights).map
    (fun p => (Int.fract ((totalCount : ℚ) * p.2), p.1))

/-- Lines 365-411 of `generate_mixed`: input validation, weight
normalization, proportional floor allocation, and largest-remainder
distribution of the words lost to flooring (the sorted `fractional_parts`
prefix of length `remaining` gains one word each).  The
`isinstance(difficulty, Difficulty)` check cannot fail in the typed
embedding. -/
def mixedAllocation (weights : List (Difficulty × ℚ)) (totalCount : Int) :
    Except String (List (Difficulty × Int)) :=
  if totalCount ≤ 0 then .error "Total count must be positive"
  else if weights = [] then .error "Weights dictionary cannot be empty"
  else if weights.any (fun p => decide (p.2 < 0)) then .error "Weight cannot be negative"
  else if (weights.map Prod.snd).sum = 0 then .error "Total weight cannot be zero"
  else if 0 < mixedRemaining weights totalCount then
    if ((mixedFracParts weights totalCount).map Prod.fst).Nodup then
      .ok ((mixedBaseCounts weights totalCount).map (fun p =>
        (p.1,
          if p.1 ∈ ((List.insertionSort fracDescLe
              (mixedFracParts weights totalCount)).take
              (mixedRemaining weights totalCount).toNat).map Prod.snd
          then p.2 + 1 else p.2)))
    else .error "TypeError: '<' not supported between instances of Difficulty"
  else .ok (mixedBaseCounts weights totalCount)

/-- Modelled from the spec's apportionment wording (C2): the difficulties
with the largest fractional remainders, as many of them as there are words
left over after flooring. -/
def hamiltonWinners (weights : List (Difficulty × ℚ)) (totalCount : Int) :
    List Difficulty :=
  ((List.insertionSort fracDescLe (mixedFracParts weights totalCount)).take
    (mixedRemaining weights totalCount).toNat).map Prod.snd

/-- Modelled from the spec's apportionment wording (C2): each difficulty's
share is `floor(total_count × normalized_weight)`, and the leftover from
flooring goes one word at a time to the difficulties with the largest
fractional remainders (largest-remainder / Hamilton apportionment). -/
def hamiltonShares (weights : List (Difficulty × ℚ)) (totalCount : Int) :
    List (Difficulty × Int) :=
  (mixedBaseCounts weights totalCount).map (fun p =>
    (p.1, if p.1 ∈ hamiltonWinners weights totalCount then p.2 + 1 else p.2))

/-- Lines 413-433 of `generate_mixed`: generate each difficulty's
allocation, compensating a failed difficulty from the first key of the
count dictionary (failures are caught, never propagated). -/
def genMixedLoop (pools : Difficulty → List String) (firstAvailable : Difficulty) :
    List (Difficulty × Int) → Nat → List String × Nat
  | [], rng => ([], rng)
  | (d, c) :: rest, rng =>
    if 0 < c then
      match generateWords (pools d) c rng with
      | .ok res =>
        let others := genMixedLoop pools firstAvailable rest res.2
        (res.1 ++ others.1, others.2)
      | .error _ =>
        if firstAvailable ≠ d then
          match generateWords (pools firstAvailable) c rng with
          | .ok res =>
            let others := genMixedLoop pools firstAvailable rest res.2
            (res.1 ++ others.1, others.2)
          | .error _ => genMixedLoop pools firstAvailable rest rng
        else genMixedLoop pools firstAvailable rest rng
    else genMixedLoop pools firstAvailable rest rng

/-- `generate_mixed(weights, total_count)`: allocation, per-difficulty
generation, and the final shuffle of the assembled list. -/
def generateMixed (pools : Difficulty → List String) (weights : List (Difficulty × ℚ))
    (totalCount : Int) (rng : Nat) : Except String (List String × Nat) :=
  match mixedAllocation weights totalCount with
  | .error e => .error e
  | .ok counts =>
    let firstAvailable := (counts.headD (Difficulty.simple, 0)).1
    let gathered := genMixedLoop pools firstAvailable counts rng
    .ok (shuffle gathered.1 gathered.2)

/-! ## `PerformanceCalculator` (`game/performance_calculator.py`) -/

/-- Python's `round(x, 1)` modelled over `ℚ`: round to one decimal place.
(Python rounds halves to even on binary floats; no property verified here
evaluates `round` at a half-way point.) -/
def pyRound1 (q : ℚ) : ℚ := (round (q * 10) : Int) / 10

/-- `calculate_wpm(typed_text, time_elapsed_seconds)` (lines 60-69):
`(len(typed)/5) / (elapsed/60)` rounded to one decimal, `0.0` when
`elapsed <= 0`. -/
def calculateWpm (typedText : String) (timeElapsedSeconds : ℚ) : ℚ :=
  if timeElapsedSeconds ≤ 0 then 0
  else
    let totalCharacters : ℚ := (typedText.length : ℚ)
    let timeMinutes : ℚ := timeElapsedSeconds / 60
    pyRound1 ((totalCharacters / 5) / timeMinutes)

/-- The `for i in range(comparison_length)` loop of `calculate_accuracy`:
the number of positions in the overlapping prefix where the two strings
agree. -/
def countMatches : List Char → List Char → Nat
  | a :: as2, b :: bs2 => (if a = b then 1 else 0) + countMatches as2 bs2
  | _, _ => 0

/-- `calculate_accuracy(typed_text, target_text)` (lines 71-84):
`matches / len(typed) * 100` rounded to one decimal, `0.0` for empty
typed text. -/
def calculateAccuracy (typedText targetText : String) : ℚ :=
  if typedText = "" then 0
  else
    let correctCharacters : ℚ := (countMatches typedText.toList targetText.toList : ℚ)
    pyRound1 (correctCharacters / (typedText.length : ℚ) * 100)

/-! ## `WordSourceLoader.load_file` (`game/word_source_loader.py` lines 24-74)

A file is modelled as the sequence of byte chunks delivered by the buffered
reader (CPython's text layer pulls the raw stream in 8192-byte chunks and
feeds each chunk to an incremental decoder).  Decoding a chunk either
yields its code points (plus an incomplete trailing byte sequence kept
pending for the next chunk), or fails; when a chunk fails, the lines
already produced from earlier chunks have been consumed by the caller's
iteration, and the exception propagates.  An incomplete sequence pending
at end of file is also a decode failure. -/

/-- The four encodings `load_file` tries, in order. -/
inductive PyEncoding where
  | utf8
  | utf8sig
  | latin1
  | cp1252
  deriving DecidableEq

/-- Total length (in bytes) of a UTF-8 sequence, from its lead byte. -/
def utf8SeqLen (b : Nat) : Option Nat :=
  if b ≤ 0x7F then some 1
  else if 0xC2 ≤ b ∧ b ≤ 0xDF then some 2
  else if 0xE0 ≤ b ∧ b ≤ 0xEF then some 3
  else if 0xF0 ≤ b ∧ b ≤ 0xF4 then some 4
  else none

/-- Whether byte `b` is a valid `idx`-th continuation byte (1-based) for a
sequence with the given lead byte (strict UTF-8: no overlongs, no
surrogates, nothing above U+10FFFF). -/
def utf8ContOk (lead idx b : Nat) : Bool :=
  if idx = 1 then
    if lead = 0xE0 then decide (0xA0 ≤ b ∧ b ≤ 0xBF)
    else if lead = 0xED then decide (0x80 ≤ b ∧ b ≤ 0x9F)
    else if lead = 0xF0 then decide (0x90 ≤ b ∧ b ≤ 0xBF)
    else if lead = 0xF4 then decide (0x80 ≤ b ∧ b ≤ 0x8F)
    else decide (0x80 ≤ b ∧ b ≤ 0xBF)
  else decide (0x80 ≤ b ∧ b ≤ 0xBF)

/-- Validity of the list of continuation bytes seen so far. -/
def utf8ContsOk (lead : Nat) : Nat → List Nat → Bool
  | _, [] => true
  | idx, c :: cs => utf8ContOk lead idx c && utf8ContsOk lead (idx + 1) cs

/-- The payload bits of a lead byte. -/
def utf8LeadVal (b : Nat) : Nat :=
  if b ≤ 0x7F then b
  else if b ≤ 0xDF then b - 0xC0
  else if b ≤ 0xEF then b - 0xE0
  else b - 0xF0

/-- Code point assembled from a lead byte and its continuation bytes. -/
def utf8Assemble (lead : Nat) (conts : List Nat) : Nat :=
  conts.foldl (fun acc c => acc * 64 + (c - 0x80)) (utf8LeadVal lead)

/-- One incremental UTF-8 decode step over a chunk: `some (codePoints,
pendingTail)` where `pendingTail` is a valid-so-far incomplete final
sequence, or `none` on an invalid byte.  The fuel (always instantiated at
the chunk length) only serves structural termination. -/
def utf8ScanAux : Nat → List Nat → Option (List Nat × List Nat)
  | _, [] => some ([], [])
  | 0, _ :: _ => none
  | Nat.succ fuel, b :: rest =>
    match utf8SeqLen b with
    | none => none
    | some n =>
      if n = 1 then
        match utf8ScanAux fuel rest with
        | none => none
        | some res => some (b :: res.1, res.2)
      else
        let conts := rest.take (n - 1)
        if utf8ContsOk b 1 conts then
          if conts.length = n - 1 then
            match utf8ScanAux fuel (rest.drop (n - 1)) with
            | none => none
            | some res => some (utf8Assemble b conts :: res.1, res.2)
          else some ([], b :: rest)
        else none

/-- Incremental UTF-8 decoding of one chunk. -/
def utf8Scan (bytes : List Nat) : Option (List Nat × List Nat) :=
  utf8ScanAux bytes.length bytes

/-- The Windows-1252 character table for one byte: bytes `0x80`-`0x9F`
map through the table (five of them are undefined and fail), all others
map to themselves. -/
def cp1252Map (b : Nat) : Option Nat :=
  if b < 0x80 ∨ 0xA0 ≤ b then some b
  else if b = 0x80 then some 0x20AC
  else if b = 0x82 then some 0x201A
  else if b = 0x83 then some 0x0192
  else if b = 0x84 then some 0x201E
  else if b = 0x85 then some 0x2026
  else if b = 0x86 then some 0x2020
  else if b = 0x87 then some 0x2021
  else if b = 0x88 then some 0x02C6
  else if b = 0x89 then some 0x2030
  else if b = 0x8A then some 0x0160
  else if b = 0x8B then some 0x2039
  else if b = 0x8C then some 0x0152
  else if b = 0x8E then some 0x017D
  else if b = 0x91 then some 0x2018
  else if b = 0x92 then some 0x2019
  else if b = 0x93 then some 0x201C
  else if b = 0x94 then some 0x201D
  else if b = 0x95 then some 0x2022
  else if b = 0x96 then some 0x2013
  else if b = 0x97 then some 0x2014
  else if b = 0x98 then some 0x02DC
  else if b = 0x99 then some 0x2122
  else if b = 0x9A then some 0x0161
  else if b = 0x9B then some 0x203A
  else if b = 0x9C then some 0x0153
  else if b = 0x9E then some 0x017E
  else if b = 0x9F then some 0x0178
  else none

/-- Windows-1252 decoding of one chunk (single-byte, nothing pending). -/
def cp1252Scan : List Nat → Option (List Nat × List Nat)
  | [] => some ([], [])
  | b :: rest =>
    match cp1252Map b, cp1252Scan rest with
    | some c, some res => some (c :: res.1, res.2)
    | _, _ => none

/-- Incremental decoding of one chunk under each of the four encodings
(Latin-1 never fails). -/
def decodeChunk : PyEncoding → List Nat → Option (List Nat × List Nat)
  | .utf8, bs => utf8Scan bs
  | .utf8sig, bs => utf8Scan bs
  | .latin1, bs => some (bs, [])
  | .cp1252, bs => cp1252Scan bs

/-- Reads the chunk stream through the incremental decoder, carrying the
pending incomplete sequence between chunks: returns the code points
successfully produced and whether the whole stream decoded. -/
def readChunks (enc : PyEncoding) : List Nat → List (List Nat) → List Nat × Bool
  | pending, [] => if pending = [] then ([], true) else ([], false)
  | pending, c :: cs =>
    match decodeChunk enc (pending ++ c) with
    | none => ([], false)
    | some res =>
      let rest := readChunks enc res.2 cs
      (res.1 ++ rest.1, rest.2)

/-- `utf-8-sig`: a byte-order mark at the start of the stream is consumed. -/
def stripBOM : List (List Nat) → List (List Nat)
  | [] => []
  | c :: cs => if c.take 3 = [0xEF, 0xBB, 0xBF] then c.drop 3 :: cs else c :: cs

/-- Full decoding attempt of the stream under one encoding. -/
def readStream (enc : PyEncoding) (chunks : List (List Nat)) : List Nat × Bool :=
  readChunks enc [] (if enc = .utf8sig then stripBOM chunks else chunks)

/-- Universal-newline translation performed by the text layer:
`\r\n` and bare `\r` both become `\n`. -/
def translateNewlines : List Nat → List Nat
  | [] => []
  | 13 :: 10 :: rest => 10 :: translateNewlines rest
  | 13 :: rest => 10 :: translateNewlines rest
  | c :: rest => c :: translateNewlines rest

/-- Decoded code points as a Lean string. -/
def codepointsToString (cps : List Nat) : String :=
  String.mk (cps.map Char.ofNat)

/-- The lines produced by iterating the text file: every segment ended by a
newline, plus — only once the end of the file is reached successfully — a
final unterminated segment if nonempty.  When decoding failed mid-stream
(`completedOnly`), the trailing segment has not been yielded yet. -/
def iterLines (text : String) (completedOnly : Bool) : List String :=
  let segs := text.splitOn "\n"
  if completedOnly then segs.dropLast
  else if segs.getLast? = some "" then segs.dropLast else segs

/-- One decoding attempt of `load_file`: the lines the `for line in file`
loop received, and whether the attempt reached the end of the file. -/
def attemptLines (enc : PyEncoding) (chunks : List (List Nat)) : List String × Bool :=
  let res := readStream enc chunks
  let text := codepointsToString (translateNewlines res.1)
  if res.2 then (iterLines text false, true) else (iterLines text true, false)

/-- Python `str.strip()` whitespace (the characters relevant here). -/
def isPySpace (c : Char) : Bool :=
  c = ' ' || c = '\t' || c = '\n' || c = '\x0d' || c = '\x0b' || c = '\x0c'

/-- `line.strip()`. -/
def pyStrip (s : String) : String :=
  String.mk (((s.toList.dropWhile isPySpace).reverse.dropWhile isPySpace).reverse)

/-- Helper for `line.split()`: accumulates maximal runs of non-whitespace. -/
def splitWsAux : List Char → List Char → List String
  | acc, [] => if acc = [] then [] else [String.mk acc.reverse]
  | acc, c :: rest =>
    if isPySpace c then
      if acc = [] then splitWsAux [] rest
      else String.mk acc.reverse :: splitWsAux [] rest
    else splitWsAux (c :: acc) rest

/-- `line.split()` (split on whitespace runs, no empty pieces). -/
def pySplit (s : String) : List String :=
  splitWsAux [] s.toList

/-- The body of the `for line in file` loop (lines 48-61): strip the line,
skip blanks and `#` comments, then either keep the line verbatim
(`allow_phrases`) or split space-containing lines into single words. -/
def processLine (allowPhrases : Bool) (rawLine : String) : List String :=
  let line := pyStrip rawLine
  if line = "" then []
  else if line.startsWith "#" then []
  else if allowPhrases then [line]
  else if ' ' ∈ line.toList then pySplit line
  else [line]

/-- The `for encoding in encodings_to_try` loop.  NOTE (faithful to the
source): the `words` accumulator is initialised OUTSIDE this loop
(line 42), so entries appended by an attempt that failed part-way through
the stream are retained when the next encoding is tried. -/
def loadFileAux (allowPhrases : Bool) (chunks : List (List Nat)) :
    List String → List PyEncoding → Except String (List String)
  | _, [] => .error "Could not decode file with any supported encoding"
  | words, enc :: rest =>
    let att := attemptLines enc chunks
    let words2 := words ++ (att.1.map (processLine allowPhrases)).flatten
    if att.2 then .ok words2 else loadFileAux allowPhrases chunks words2 rest

/-- `encodings_to_try = ['utf-8', 'utf-8-sig', 'latin-1', 'cp1252']`. -/
def encodingsToTry : List PyEncoding :=
  [.utf8, .utf8sig, .latin1, .cp1252]

/-- `WordSourceLoader.load_file(filepath, allow_phrases)` on an existing
readable file with the given chunked byte content. -/
def loadFile (chunks : List (List Nat)) (allowPhrases : Bool) :
    Except String (List String) :=
  loadFileAux allowPhrases chunks [] encodingsToTry

/-! ## `WordSourceLoader.get_words_for_difficulty` (lines 76-116) -/

/-- `self._file_mappings`. -/
def fileMappings : Difficulty → String
  | .simple => "simple_words_large.txt"
  | .medium => "medium_unique_words.txt"
  | .hard => "hard_words_expanded.txt"
  | .extra_hard => "extra_hard_words_extended.txt"

/-- The three search locations tried in order. -/
def possiblePaths (filename : String) : List String :=
  [filename, "SPEED/" ++ filename, "../" ++ filename]

/-- The `for filepath in possible_paths` loop: a missing file
(`FileNotFoundError`) moves to the next path; any other load failure
propagates; when every path is missing, the built-in fallback list is
used.  The filesystem is the map from path to chunked file content. -/
def getWordsAux (fs : String → Option (List (List Nat))) (d : Difficulty) :
    List String → Except String (List String)
  | [] => .ok (fallbackWords d)
  | p :: ps =>
    match fs p with
    | none => getWordsAux fs d ps
    | some chunks => loadFile chunks true

/-- `get_words_for_difficulty(difficulty)`: cached copy when present,
otherwise loaded from the first existing path, otherwise the fallback. -/
def getWordsForDifficulty (fs : String → Option (List (List Nat)))
    (cache : Difficulty → Option (List String)) (d : Difficulty) :
    Except String (List String) :=
  match cache d with
  | some ws => .ok ws
  | none => getWordsAux fs d (possiblePaths (fileMappings d))

/-! ## `DatabaseManager` (`game/database_manager.py`)

The `scores` table is modelled as the list of its rows in physical
(insertion) order, together with the `AUTOINCREMENT` counter.  The `date`
column (assigned by the database, read by no query modelled here) is
omitted. -/

/-- The `ScoreRecord` dataclass / a row of the `scores` table. -/
structure ScoreRecord where
  id : Option Int
  userName : String
  wpm : ℚ
  accuracy : ℚ
  level : String
  mode : String
  duration : Int
  totalCharacters : Int
  correctCharacters : Int
  deriving DecidableEq, Repr

/-- `ORDER BY wpm DESC, accuracy DESC`: row `a` may be placed no later
than row `b`. -/
def rankLe (a b : ScoreRecord) : Prop :=
  b.wpm < a.wpm ∨ (b.wpm = a.wpm ∧ b.accuracy ≤ a.accuracy)

instance : DecidableRel rankLe := fun a b =>
  inferInstanceAs (Decidable (b.wpm < a.wpm ∨ (b.wpm = a.wpm ∧ b.accuracy ≤ a.accuracy)))

theorem rankLe_total : ∀ a b : ScoreRecord, rankLe a b ∨ rankLe b a := by
  intro a b
  unfold rankLe
  rcases lt_trichotomy a.wpm b.wpm with h | h | h
  · right; left; exact h
  · rcases le_total a.accuracy b.accuracy with h2 | h2
    · right; right; exact ⟨h, h2⟩
    · left; right; exact ⟨h.symm, h2⟩
  · left; left; exact h

theorem rankLe_trans : ∀ a b c : ScoreRecord, rankLe a b → rankLe b c → rankLe a c := by
  intro a b c hab hbc
  unfold rankLe at *
  rcases hab with h1 | ⟨h1, h1a⟩ <;> rcases hbc with h2 | ⟨h2, h2a⟩
  · left; exact h2.trans h1
  · left; rw [h2]; exact h1
  · left; rw [← h1]; exact h2
  · right; exact ⟨h2.trans h1, h2a.trans h1a⟩

instance : IsTotal ScoreRecord rankLe := ⟨rankLe_total⟩

instance : IsTrans ScoreRecord rankLe := ⟨fun a b c => rankLe_trans a b c⟩

/-- The ordering `SELECT id FROM scores ORDER BY wpm DESC, accuracy DESC`
produces. -/
def sortScores (rows : List ScoreRecord) : List ScoreRecord :=
  List.insertionSort rankLe rows

/-- The `scores` table state. -/
structure ScoresDb where
  rows : List ScoreRecord
  nextId : Int
  deriving Repr

/-- A freshly created `scores` table. -/
def emptyDb : ScoresDb := ⟨[], 1⟩

/-- `DatabaseManager.save_score(score)` (lines 160-195): insert the row,
then `DELETE FROM scores WHERE id NOT IN (SELECT id FROM scores ORDER BY
wpm DESC, accuracy DESC LIMIT 50)` — surviving rows keep their physical
order. -/
def saveScore (db : ScoresDb) (score : ScoreRecord) : ScoresDb :=
  let inserted := { score with id := some db.nextId }
  let afterInsert := db.rows ++ [inserted]
  let kept := (sortScores afterInsert).take 50
  { rows := afterInsert.filter (fun r => decide (r ∈ kept)), nextId := db.nextId + 1 }

/-- `DatabaseManager.get_leaderboard(mode, limit)` (lines 217-244):
optionally filter by mode, order by `(wpm DESC, accuracy DESC)`, `LIMIT`. -/
def getLeaderboard (db : ScoresDb) (mode : Option String) (limit : Nat) :
    List ScoreRecord :=
  let selected :=
    match mode with
    | some m => db.rows.filter (fun r => decide (r.mode = m))
    | none => db.rows
  (sortScores selected).take limit

/-! ## `SpeedEngine` (`game/speed_engine.py`)

The engine's session state machine.  Wall-clock instants (`time.time()`,
`datetime.now()`) are passed in as explicit arguments, and the target text
produced by `_generate_target_text` / `_generate_time_based_text` is
likewise an explicit input of the start operations.  Registered callbacks
are modelled by their count; invoking the session-end callback list adds
that count to a run counter. -/

/-- `class GameMode(Enum)`. -/
inductive GameMode where
  | practice
  | timed_challenge
  | accuracy_focus
  | speed_burst
  | endurance
  deriving DecidableEq, Repr

/-- `class DifficultyLevel(Enum)`. -/
inductive DifficultyLevel where
  | beginner
  | intermediate
  | advanced
  | expert
  deriving DecidableEq, Repr

/-- The `.value` strings of `GameMode`. -/
def gameModeValue : GameMode → String
  | .practice => "practice"
  | .timed_challenge => "timed_challenge"
  | .accuracy_focus => "accuracy_focus"
  | .speed_burst => "speed_burst"
  | .endurance => "endurance"

/-- The `.value` strings of `DifficultyLevel`. -/
def difficultyLevelValue : DifficultyLevel → String
  | .beginner => "beginner"
  | .intermediate => "intermediate"
  | .advanced => "advanced"
  | .expert => "expert"

/-- The `GameSession` dataclass. -/
structure GameSession where
  sessionId : String
  userName : String
  mode : GameMode
  difficulty : DifficultyLevel
  startTime : Int
  targetText : String
  durationSeconds : Int
  isActive : Bool
  endTime : Option Int
  typedText : String
  currentWpm : ℚ
  currentAccuracy : ℚ
  deriving DecidableEq, Repr

/-- The engine state relevant to the session lifecycle. -/
structure EngineState where
  currentSession : Option GameSession
  updateCallbacks : Nat
  sessionEndCallbacks : Nat
  sessionEndCallbackRuns : Nat
  deriving DecidableEq, Repr

/-- `is_session_active()` (also the guard expression
`self.current_session and self.current_session.is_active` used by the
start and end operations). -/
def isSessionActive (e : EngineState) : Bool :=
  match e.currentSession with
  | some s => s.isActive
  | none => false

/-- `expected_wpm_map` of `_calculate_dynamic_duration` (and the identical
`_get_target_wpm_for_difficulty` table). -/
def expectedWpmFor : DifficultyLevel → ℚ
  | .beginner => 25
  | .intermediate => 40
  | .advanced => 55
  | .expert => 70

/-- Mode-based complexity adjustment of `_calculate_dynamic_duration`. -/
def modeMultiplier : GameMode → ℚ
  | .accuracy_focus => 3 / 2
  | .speed_burst => 4 / 5
  | .endurance => 6 / 5
  | .timed_challenge => 13 / 10
  | .practice => 1

/-- Difficulty-based complexity adjustment of
`_calculate_dynamic_duration`. -/
def difficultyMultiplier : DifficultyLevel → ℚ
  | .expert => 7 / 5
  | .advanced => 6 / 5
  | .beginner => 1
  | .intermediate => 1

/-- `_calculate_dynamic_duration(text, difficulty, mode)` (lines 151-201). -/
def calculateDynamicDuration (text : String) (difficulty : DifficultyLevel)
    (mode : GameMode) : Int :=
  let wordCount := (pySplit text).length
  let lineCount := (text.splitOn "\n").length
  let baseTime : ℚ := (wordCount : ℚ) / expectedWpmFor difficulty * 60
  let complexityMultiplier : ℚ := modeMultiplier mode * difficultyMultiplier difficulty
  let lineBonus : Int := max 0 (((lineCount : Int) - 5) * 5)
  let finalDuration : Int := ⌊baseTime * complexityMultiplier + (lineBonus : ℚ)⌋
  max 30 (min 600 finalDuration)

/-- `start_session(user_name, mode, difficulty, duration)` (lines 89-118):
fails while a session is active; otherwise creates the one live session
with the dynamically computed duration.  `targetText` is the text produced
by `_generate_target_text(mode, difficulty, duration)`, and `now` the
current wall-clock time. -/
def startSession (e : EngineState) (userName : String) (mode : GameMode)
    (difficulty : DifficultyLevel) (duration : Int) (targetText : String)
    (now : Int) : Bool × EngineState :=
  if isSessionActive e then (false, e)
  else
    let dynamicDuration := calculateDynamicDuration targetText difficulty mode
    let session : GameSession :=
      { sessionId := userName ++ "_" ++ toString now
        userName := userName
        mode := mode
        difficulty := difficulty
        startTime := now
        targetText := targetText
        durationSeconds := dynamicDuration
        isActive := true
        endTime := none
        typedText := ""
        currentWpm := 0
        currentAccuracy := 0 }
    (true, { e with currentSession := some session })

/-- `start_time_based_session(user_name, mode, difficulty, minutes)`
(lines 120-149): like `start_session` but with planned duration
`minutes * 60` and time-selection generated text. -/
def startTimeBasedSession (e : EngineState) (userName : String) (mode : GameMode)
    (difficulty : DifficultyLevel) (minutes : Int) (targetText : String)
    (now : Int) : Bool × EngineState :=
  if isSessionActive e then (false, e)
  else
    let durationSeconds := minutes * 60
    let session : GameSession :=
      { sessionId := userName ++ "_" ++ toString now
        userName := userName
        mode := mode
        difficulty := difficulty
        startTime := now
        targetText := targetText
        durationSeconds := durationSeconds
        isActive := true
        endTime := none
        typedText := ""
        currentWpm := 0
        currentAccuracy := 0 }
    (true, { e with currentSession := some session })

/-- `_finalize_session()` (lines 247-289): clears the active flag, stamps
the end time and builds the (not yet persisted) `ScoreRecord` from the
performance calculator's final metrics. -/
def finalizeSession (s : GameSession) (now : Int) : ScoreRecord × GameSession :=
  let ended := { s with isActive := false, endTime := some now }
  let totalTime : ℚ := ((now - s.startTime : Int) : ℚ)
  let record : ScoreRecord :=
    { id := none
      userName := s.userName
      wpm := calculateWpm s.typedText totalTime
      accuracy := calculateAccuracy s.typedText s.targetText
      level := difficultyLevelValue s.difficulty
      mode := gameModeValue s.mode
      duration := now - s.startTime
      totalCharacters := (s.typedText.length : Int)
      correctCharacters := (countMatches s.typedText.toList s.targetText.toList : Int) }
  (record, ended)

/-- `end_session()` (lines 228-243): returns nothing (and notifies no
callback) unless a session is active; otherwise finalizes the session and
invokes every registered session-end callback. -/
def endSession (e : EngineState) (now : Int) : Option ScoreRecord × EngineState :=
  match e.currentSession with
  | none => (none, e)
  | some s =>
    if s.isActive then
      let fin := finalizeSession s now
      (some fin.1,
        { e with
            currentSession := some fin.2
            sessionEndCallbackRuns := e.sessionEndCallbackRuns + e.sessionEndCallbacks })
    else (none, e)

/-! ## Call sequences against a `WordGenerator` (for reproducibility)

`WordGenerator.__init__(seed)` (lines 18-46) stores
`random.Random(seed)` as the only random source every generation method
draws from; the word pools come from the word loader.  A generator
instance is therefore its pool assignment plus the random state, and a
call sequence is replayed by threading that state through the methods.
A method that raises does so before drawing from the random source, so
the state is unchanged on error. -/

/-- One call to a generation method of `WordGenerator`. -/
inductive GenCall where
  | words (d : Difficulty) (count : Int)
  | forSession (d : Difficulty) (durationSeconds targetWpm : Int)
  | forTime (d : Difficulty) (minutes : Int)
  | paragraph (d : Difficulty) (lines maxLineChars : Int)
  | mixed (weights : List (Difficulty × ℚ)) (totalCount : Int)

/-- A `WordGenerator` instance: its word sources and private random state. -/
structure WordGeneratorState where
  pools : Difficulty → List String
  rng : Nat

/-- `WordGenerator(seed)` over the given word sources. -/
def mkWordGenerator (seed : Int) (pools : Difficulty → List String) :
    WordGeneratorState :=
  { pools := pools, rng := rngInit seed }

/-- Executes one generation call, returning its outcome and the instance
afterwards. -/
def stepCall (g : WordGeneratorState) :
    GenCall → Except String (List String) × WordGeneratorState
  | .words d count =>
    match generateWords (g.pools d) count g.rng with
    | .ok res => (.ok res.1, { g with rng := res.2 })
    | .error e => (.error e, g)
  | .forSession d dur wpm =>
    match generateForSession (g.pools d) dur wpm g.rng with
    | .ok res => (.ok res.1, { g with rng := res.2 })
    | .error e => (.error e, g)
  | .forTime d m =>
    match generateForTimeSelection (g.pools d) m g.rng with
    | .ok res => (.ok res.1, { g with rng := res.2 })
    | .error e => (.error e, g)
  | .paragraph d l mc =>
    match generateParagraph (g.pools d) l mc g.rng with
    | .ok res => (.ok res.1, { g with rng := res.2 })
    | .error e => (.error e, g)
  | .mixed w t =>
    match generateMixed g.pools w t g.rng with
    | .ok res => (.ok res.1, { g with rng := res.2 })
    | .error e => (.error e, g)

/-- Replays a sequence of generation calls, collecting each call's
outcome. -/
def runCalls (g : WordGeneratorState) :
    List GenCall → List (Except String (List String))
  | [] => []
  | c :: cs =>
    let step := stepCall g c
    step.1 :: runCalls step.2 cs

/-- A concrete engine state holding one active session. -/
def activeEngine : EngineState :=
  { currentSession := some
      { sessionId := "u_1"
        userName := "u"
        mode := .practice
        difficulty := .beginner
        startTime := 1
        targetText := "abc"
        durationSeconds := 60
        isActive := true
        endTime := none
        typedText := ""
        currentWpm := 0
        currentAccuracy := 0 }
    updateCallbacks := 0
    sessionEndCallbacks := 1
    sessionEndCallbackRuns := 0 }

/-- A concrete engine state with no session. -/
def idleEngine : EngineState :=
  { currentSession := none
    updateCallbacks := 0
    sessionEndCallbacks := 1
    sessionEndCallbackRuns := 0 }

/-! ## Auxiliary facts about the built-in word pools -/

theorem fallbackWords_ne_nil : ∀ d : Difficulty, fallbackWords d ≠ [] := by
  intro d
  cases d <;> decide

theorem fallbackWords_nodup : ∀ d : Difficulty, (fallbackWords d).Nodup := by
  intro d
  cases d <;> decide

theorem fallbackWords_nonempty_words :
    ∀ d : Difficulty, ∀ w ∈ fallbackWords d, w ≠ "" := by
  intro d
  cases d <;> decide

/-! ## Claim theorems -/

/-- C8: `calculate_wpm(typed, t)` equals `round((len(typed)/5)/(t/60), 1)`
for `t > 0` and `0.0` for `t ≤ 0`; `calculate_accuracy(typed, target)` is
`0.0` for empty typed text and otherwise `round(matches/len(typed)×100, 1)`
with matches counted over the overlapping prefix; in particular
`calculate_wpm("hello world", 10.0) = 13.2`,
`calculate_accuracy("hello world", "hello world") = 100.0` and
`calculate_accuracy("hexxo", "hello") = 60.0`. -/
theorem c8_wpm_accuracy_formulas :
    (∀ (typed : String) (t : ℚ), 0 < t →
        calculateWpm typed t = pyRound1 (((typed.length : ℚ) / 5) / (t / 60))) ∧
    (∀ (typed : String) (t : ℚ), t ≤ 0 → calculateWpm typed t = 0) ∧
    (∀ target : String, calculateAccuracy "" target = 0) ∧
    (∀ typed target : String, typed ≠ "" →
        calculateAccuracy typed target =
          pyRound1 ((countMatches typed.toList target.toList : ℚ) /
            (typed.length : ℚ) * 100)) ∧
    calculateWpm "hello world" 10 = 132 / 10 ∧
    calculateAccuracy "hello world" "hello world" = 100 ∧
    calculateAccuracy "hexxo" "hello" = 60 := by
  refine ⟨?_, ?_, ?_, ?_, by with_unfolding_all decide, by with_unfolding_all decide,
    by with_unfolding_all decide⟩
  · intro typed t ht
    rw [calculateWpm, if_neg (not_le.mpr ht)]
  · intro typed t ht
    rw [calculateWpm, if_pos ht]
  · intro target
    rw [calculateAccuracy, if_pos rfl]
  · intro typed target htyped
    rw [calculateAccuracy, if_neg htyped]

/-- C8 witness: the universally quantified parts of
`c8_wpm_accuracy_formulas` instantiated at concrete inputs. -/
theorem c8_witness :
    calculateWpm "abc" 2 = pyRound1 (((3 : ℚ) / 5) / (2 / 60)) ∧
    calculateWpm "abc" (-1) = 0 ∧
    calculateAccuracy "" "xyz" = 0 ∧
    calculateAccuracy "ab" "ax" =
      pyRound1 ((countMatches "ab".toList "ax".toList : ℚ) / 2 * 100) :=
  ⟨c8_wpm_accuracy_formulas.1 "abc" 2 (by norm_num),
   c8_wpm_accuracy_formulas.2.1 "abc" (-1) (by norm_num),
   c8_wpm_accuracy_formulas.2.2.1 "xyz",
   c8_wpm_accuracy_formulas.2.2.2.1 "ab" "ax" (by decide)⟩

/-- C6 counterexample: `generate_for_session(simple, 90, 25)` requests 40
words (the base count `int(1.5 × 25) = 37` is truncated before the 10%
buffer, and `int(37 × 1.1) = 40`), but the claim's formula
`max(10, ⌊90/60 × 25 × 1.10⌋)` gives 41. -/
theorem c6_counterexample :
    ((generateForSession (fallbackWords .simple) 90 25 0).toOption.map
        (fun p => p.1.length)) = some 40 ∧
    max (10 : Int) ⌊(90 : ℚ) / 60 * 25 * (11 / 10)⌋ = 41 := by
  constructor
  · with_unfolding_all decide
  · with_unfolding_all decide

/-- C6 (amended): `generate_for_session(d, duration_seconds, target_wpm)`
raises Invalid-Input on a non-positive input and otherwise requests exactly
`max(10, floor(floor(duration_seconds/60 × target_wpm) × 1.10))` words from
`generate_words` — the base word count is truncated to an integer before
the 10% session buffer is applied. -/
theorem c6_session_word_count :
    (∀ (pool : List String) (dur wpm : Int) (rng : Nat), dur ≤ 0 →
        generateForSession pool dur wpm rng = .error "Duration must be positive") ∧
    (∀ (pool : List String) (dur wpm : Int) (rng : Nat), 0 < dur → wpm ≤ 0 →
        generateForSession pool dur wpm rng = .error "Target WPM must be positive") ∧
    (∀ (pool : List String) (dur wpm : Int) (rng : Nat), 0 < dur → 0 < wpm →
        generateForSession pool dur wpm rng =
          generateWords pool
            (max ⌊((⌊(dur : ℚ) / 60 * (wpm : ℚ)⌋ : Int) : ℚ) * (11 / 10)⌋ 10) rng) := by
  refine ⟨?_, ?_, ?_⟩
  · intro pool dur wpm rng hdur
    rw [generateForSession, if_pos hdur]
  · intro pool dur wpm rng hdur hwpm
    rw [generateForSession, if_neg (not_le.mpr hdur), if_pos hwpm]
  · intro pool dur wpm rng hdur hwpm
    rw [generateForSession, if_neg (not_le.mpr hdur), if_neg (not_le.mpr hwpm)]
    norm_num

/-- C6 witness: the three cases of `c6_session_word_count` at concrete
inputs. -/
theorem c6_witness :
    generateForSession (fallbackWords .simple) 0 25 0 =
      .error "Duration must be positive" ∧
    generateForSession (fallbackWords .simple) 60 0 0 =
      .error "Target WPM must be positive" ∧
    generateForSession (fallbackWords .simple) 90 25 0 =
      generateWords (fallbackWords .simple)
        (max ⌊((⌊(90 : ℚ) / 60 * (25 : ℚ)⌋ : Int) : ℚ) * (11 / 10)⌋ 10) 0 :=
  ⟨c6_session_word_count.1 _ 0 25 0 (by norm_num),
   c6_session_word_count.2.1 _ 60 0 0 (by norm_num) (by norm_num),
   c6_session_word_count.2.2 _ 90 25 0 (by norm_num) (by norm_num)⟩

/-- C5: for every difficulty (with its built-in candidate pool) and count:
non-positive counts raise Invalid-Input; positive counts return exactly
`count` words all drawn from the pool, pairwise distinct when
`count ≤ pool size`, and with at least one repeated word when
`count > pool size`. -/
theorem c5_generate_words :
    (∀ (d : Difficulty) (count : Int) (rng : Nat), count ≤ 0 →
        generateWords (fallbackWords d) count rng = .error "Count must be positive") ∧
    (∀ (d : Difficulty) (count : Int) (rng : Nat), 0 < count →
        ∃ ws rng2, generateWords (fallbackWords d) count rng = .ok (ws, rng2) ∧
          ws.length = count.toNat ∧
          (∀ w ∈ ws, w ∈ fallbackWords d) ∧
          (count.toNat ≤ (fallbackWords d).length → ws.Nodup) ∧
          ((fallbackWords d).length < count.toNat → ∃ w, 2 ≤ ws.count w)) := by
  constructor
  · intro d count rng h
    exact generateWords_err_nonpos _ _ _ h
  · intro d count rng hpos
    have hne := fallbackWords_ne_nil d
    have hnd := fallbackWords_nodup d
    have hnotle : ¬ count ≤ 0 := by omega
    have hlen : ¬ (fallbackWords d).length = 0 :=
      fun h => hne (List.length_eq_zero.mp h)
    by_cases hle : count.toNat ≤ (fallbackWords d).length
    · refine ⟨(sample (fallbackWords d) count.toNat rng).1,
        (sample (fallbackWords d) count.toNat rng).2, ?_, ?_, ?_, ?_, ?_⟩
      · simp [generateWords, hnotle, hlen, hle]
      · rw [sample, sampleAux_length]; omega
      · exact fun w hw => sampleAux_subset _ _ _ w hw
      · intro _; exact sampleAux_nodup _ _ _ hnd
      · intro hcontra; omega
    · obtain ⟨ws, rng2, hok, hlen2, hsub⟩ :=
        generateWords_ok (fallbackWords d) count rng hne hpos
      refine ⟨ws, rng2, hok, hlen2, hsub, ?_, ?_⟩
      · intro h; exact absurd h hle
      · intro hgt
        have hnotnodup : ¬ ws.Nodup := by
          intro hnodup
          have hsubperm : ws.Subperm (fallbackWords d) := hnodup.subperm hsub
          have := hsubperm.length_le
          omega
        rw [List.nodup_iff_count_le_one] at hnotnodup
        push_neg at hnotnodup
        obtain ⟨w, hw⟩ := hnotnodup
        exact ⟨w, by omega⟩

/-- C5 witness: both cases of `c5_generate_words` at concrete inputs. -/
theorem c5_witness :
    generateWords (fallbackWords .simple) (-3) 0 = .error "Count must be positive" ∧
    ∃ ws rng2, generateWords (fallbackWords .simple) 5 0 = .ok (ws, rng2) ∧
      ws.length = (5 : Int).toNat ∧
      (∀ w ∈ ws, w ∈ fallbackWords .simple) ∧
      ((5 : Int).toNat ≤ (fallbackWords .simple).length → ws.Nodup) ∧
      ((fallbackWords .simple).length < (5 : Int).toNat → ∃ w, 2 ≤ ws.count w) :=
  ⟨c5_generate_words.1 .simple (-3) 0 (by norm_num),
   c5_generate_words.2 .simple 5 0 (by norm_num)⟩

/-- C10: with no word file found at any of the three search paths (and no
cache entry), `get_words_for_difficulty(d)` returns the built-in fallback
list, which is non-empty for every difficulty, so `generate_words` with
these pools never reaches its `No words available` error branch. -/
theorem c10_loader_fallback_total :
    (∀ (d : Difficulty) (fs : String → Option (List (List Nat)))
        (cache : Difficulty → Option (List String)),
        (∀ p, fs p = none) → cache d = none →
        getWordsForDifficulty fs cache d = .ok (fallbackWords d)) ∧
    (∀ d : Difficulty, fallbackWords d ≠ []) ∧
    (∀ (d : Difficulty) (count : Int) (rng : Nat), 0 < count →
        ∃ res, generateWords (fallbackWords d) count rng = .ok res) := by
  refine ⟨?_, fallbackWords_ne_nil, ?_⟩
  · intro d fs cache hfs hcache
    simp [getWordsForDifficulty, hcache, getWordsAux, possiblePaths, hfs]
  · intro d count rng hpos
    obtain ⟨ws, rng2, hok, -, -⟩ :=
      generateWords_ok (fallbackWords d) count rng (fallbackWords_ne_nil d) hpos
    exact ⟨(ws, rng2), hok⟩

/-- C10 witness: `c10_loader_fallback_total` at a concrete empty
filesystem, empty cache, difficulty and count. -/
theorem c10_witness :
    getWordsForDifficulty (fun _ => none) (fun _ => none) .medium =
      .ok (fallbackWords .medium) ∧
    ∃ res, generateWords (fallbackWords .medium) 3 0 = .ok res :=
  ⟨c10_loader_fallback_total.1 .medium (fun _ => none) (fun _ => none)
      (fun _ => rfl) rfl,
   c10_loader_fallback_total.2.2 .medium 3 0 (by norm_num)⟩

/-- Greedy packing never grows the line beyond the limit. -/
theorem packLineAux_fst_le (maxChars : Nat) (cur : String) (ws : List String)
    (h : cur.length ≤ maxChars) :
    (packLineAux maxChars cur ws).1.length ≤ maxChars := by
  induction ws generalizing cur with
  | nil => exact h
  | cons w rest ih =>
    rw [packLineAux]
    by_cases hfit : (if cur = "" then w else cur ++ " " ++ w).length ≤ maxChars
    · rw [if_pos hfit]
      exact ih _ hfit
    · rw [if_neg hfit]
      exact h

/-- Greedy packing keeps a non-empty line non-empty. -/
theorem packLineAux_fst_ne (maxChars : Nat) (cur : String) (ws : List String)
    (h : cur ≠ "") : (packLineAux maxChars cur ws).1 ≠ "" := by
  induction ws generalizing cur with
  | nil => exact h
  | cons w rest ih =>
    rw [packLineAux]
    by_cases hfit : (if cur = "" then w else cur ++ " " ++ w).length ≤ maxChars
    · rw [if_pos hfit]
      refine ih _ ?_
      rw [if_neg h]
      intro hcontra
      have h0 : (cur ++ " " ++ w).length = 0 := by rw [hcontra]; rfl
      rw [String.length_append, String.length_append] at h0
      have h1 : (" " : String).length = 1 := rfl
      omega
    · rw [if_neg hfit]
      exact h

/-- If packing from an empty line over non-empty words produced an empty
line, nothing was consumed. -/
theorem packLineAux_empty (maxChars : Nat) (ws : List String)
    (hws : ∀ w ∈ ws, w ≠ "") (h : (packLineAux maxChars "" ws).1 = "") :
    (packLineAux maxChars "" ws).2 = ws := by
  cases ws with
  | nil => rfl
  | cons w rest =>
    rw [packLineAux] at h ⊢
    by_cases hfit : (if ("" : String) = "" then w else "" ++ " " ++ w).length ≤ maxChars
    · rw [if_pos hfit] at h
      have hw : w ≠ "" := hws w (List.mem_cons_self w rest)
      have hne : (if ("" : String) = "" then w else "" ++ " " ++ w) ≠ "" := by
        rw [if_pos rfl]
        exact hw
      exact absurd h (packLineAux_fst_ne _ _ _ hne)
    · rw [if_neg hfit]

/-- Words not consumed by the packing come from the supplied buffer. -/
theorem packLineAux_snd_subset (maxChars : Nat) (cur : String) (ws : List String) :
    ∀ x ∈ (packLineAux maxChars cur ws).2, x ∈ ws := by
  induction ws generalizing cur with
  | nil => intro x hx; exact absurd hx (List.not_mem_nil x)
  | cons w rest ih =>
    rw [packLineAux]
    by_cases hfit : (if cur = "" then w else cur ++ " " ++ w).length ≤ maxChars
    · rw [if_pos hfit]
      intro x hx
      exact List.mem_cons_of_mem w (ih _ x hx)
    · rw [if_neg hfit]
      intro x hx
      exact hx

/-- The paragraph loop, fed a non-empty buffer of pool words, emits
exactly one line per remaining line index, each line within the character
limit or a single (force-placed) pool word. -/
theorem paraLoop_spec (pool : List String) (estPerLine : Int) (maxChars : Nat)
    (hpool : pool ≠ []) (hwords : ∀ w ∈ pool, w ≠ "") (hest : 1 ≤ estPerLine) :
    ∀ (remLines : Nat) (ws : List String) (rng : Nat) (acc : List String),
      (∀ w ∈ ws, w ∈ pool) → (ws ≠ [] ∨ remLines = 0) →
      ∃ new rng2,
        paraLoop pool estPerLine maxChars remLines ws rng acc =
          .ok (acc.reverse ++ new, rng2) ∧
        new.length = remLines ∧
        ∀ line ∈ new, line.length ≤ maxChars ∨ line ∈ pool := by
  intro remLines
  induction remLines with
  | zero =>
    intro ws rng acc hsub hne
    refine ⟨[], rng, ?_, rfl, fun line h => absurd h (List.not_mem_nil line)⟩
    rw [paraLoop, List.append_nil]
  | succ rem ih =>
    intro ws rng acc hsub hne
    have hws : ws ≠ [] := by
      rcases hne with h | h
      · exact h
      · omega
    have hwsne : ∀ w ∈ ws, w ≠ "" := fun w hw => hwords w (hsub w hw)
    have hnotboth : ¬ ((packLineAux maxChars "" ws).1 = "" ∧
        (packLineAux maxChars "" ws).2 = []) := by
      rintro ⟨h1, h2⟩
      rw [packLineAux_empty maxChars ws hwsne h1] at h2
      exact hws h2
    -- the chosen line and the remaining queue
    have hlineP : (if (packLineAux maxChars "" ws).1 = ""
        then (packLineAux maxChars "" ws).2.headD "" else (packLineAux maxChars "" ws).1).length ≤ maxChars ∨
        (if (packLineAux maxChars "" ws).1 = ""
        then (packLineAux maxChars "" ws).2.headD "" else (packLineAux maxChars "" ws).1) ∈ pool := by
      by_cases hcur : (packLineAux maxChars "" ws).1 = ""
      · right
        rw [if_pos hcur]
        rw [packLineAux_empty maxChars ws hwsne hcur]
        rcases hwsm : ws with _ | ⟨w, rest2⟩
        · exact absurd hwsm hws
        · exact hsub w (by rw [hwsm]; exact List.mem_cons_self w rest2)
      · left
        rw [if_neg hcur]
        exact packLineAux_fst_le maxChars "" ws (by simp)
    have hrestsub : ∀ x ∈ (if (packLineAux maxChars "" ws).1 = ""
        then (packLineAux maxChars "" ws).2.tail else (packLineAux maxChars "" ws).2), x ∈ pool := by
      intro x hx
      by_cases hcur : (packLineAux maxChars "" ws).1 = ""
      · rw [if_pos hcur] at hx
        exact hsub x (packLineAux_snd_subset maxChars "" ws x (List.mem_of_mem_tail hx))
      · rw [if_neg hcur] at hx
        exact hsub x (packLineAux_snd_subset maxChars "" ws x hx)
    set line := (if (packLineAux maxChars "" ws).1 = ""
        then (packLineAux maxChars "" ws).2.headD "" else (packLineAux maxChars "" ws).1) with hline
    set rest := (if (packLineAux maxChars "" ws).1 = ""
        then (packLineAux maxChars "" ws).2.tail else (packLineAux maxChars "" ws).2) with hrest
    by_cases hrefill : rest = [] ∧ rem ≠ 0
    · -- buffer exhausted with more lines to fill: generate more words
      have hcount : (0 : Int) < estPerLine * ((rem : Int) + 1) :=
        mul_pos (by omega) (by omega)
      obtain ⟨more, rng2, hok, hlenm, hsubm⟩ :=
        generateWords_ok pool (estPerLine * ((rem : Int) + 1)) rng hpool hcount
      have hmorene : more ≠ [] := by
        have : 0 < more.length := by omega
        exact List.length_pos.mp this
      obtain ⟨new2, rng3, hrun, hlen2, hprop2⟩ :=
        ih more rng2 (line :: acc) hsubm (Or.inl hmorene)
      refine ⟨line :: new2, rng3, ?_, by simp [hlen2], ?_⟩
      · rw [paraLoop]
        simp only [if_neg hnotboth, ← hline, ← hrest, if_pos hrefill, hok, hrun]
        rw [List.reverse_cons, List.append_assoc]
        rfl
      · intro l hl
        rcases List.mem_cons.mp hl with h | h
        · rw [h]; exact hlineP
        · exact hprop2 l h
    · -- continue on the remaining queue
      have hnerest : rest ≠ [] ∨ rem = 0 := by
        by_cases h1 : rest = []
        · right
          by_contra h2
          exact hrefill ⟨h1, h2⟩
        · left; exact h1
      obtain ⟨new2, rng3, hrun, hlen2, hprop2⟩ :=
        ih rest rng (line :: acc) hrestsub hnerest
      refine ⟨line :: new2, rng3, ?_, by simp [hlen2], ?_⟩
      · rw [paraLoop]
        simp only [if_neg hnotboth, ← hline, ← hrest, if_neg hrefill, hrun]
        rw [List.reverse_cons, List.append_assoc]
        rfl
      · intro l hl
        rcases List.mem_cons.mp hl with h | h
        · rw [h]; exact hlineP
        · exact hprop2 l h

/-- C9: for positive `lines` and `max_line_chars` (over a difficulty's
built-in pool), `generate_paragraph` returns exactly `lines` strings, each
at most `max_line_chars` characters long unless it is a single force-placed
word from the pool; non-positive inputs raise Invalid-Input. -/
theorem c9_paragraph_lines :
    (∀ (pool : List String) (lines maxc : Int) (rng : Nat), lines ≤ 0 →
        generateParagraph pool lines maxc rng = .error "Lines must be positive") ∧
    (∀ (pool : List String) (lines maxc : Int) (rng : Nat), 0 < lines → maxc ≤ 0 →
        generateParagraph pool lines maxc rng = .error "Max line chars must be positive") ∧
    (∀ (d : Difficulty) (lines maxc : Int) (rng : Nat), 0 < lines → 0 < maxc →
        ∃ ls rng2, generateParagraph (fallbackWords d) lines maxc rng = .ok (ls, rng2) ∧
          ls.length = lines.toNat ∧
          ∀ line ∈ ls, line.length ≤ maxc.toNat ∨ line ∈ fallbackWords d) := by
  refine ⟨?_, ?_, ?_⟩
  · intro pool lines maxc rng h
    rw [generateParagraph, if_pos h]
  · intro pool lines maxc rng h1 h2
    rw [generateParagraph, if_neg (not_le.mpr h1), if_pos h2]
  · intro d lines maxc rng hlines hmaxc
    have hpool := fallbackWords_ne_nil d
    have hwords := fallbackWords_nonempty_words d
    have hest : (1 : Int) ≤ max 1 (maxc / 6) := le_max_left 1 _
    have htotal : (1 : Int) ≤ lines * max 1 (maxc / 6) := by
      have := mul_pos hlines (lt_of_lt_of_le Int.zero_lt_one hest)
      omega
    have hbuf : (0 : Int) < ⌊((lines * max 1 (maxc / 6) : Int) : ℚ) * (3 / 2 : ℚ)⌋ := by
      have h1 : (1 : ℚ) ≤ ((lines * max 1 (maxc / 6) : Int) : ℚ) := by
        exact_mod_cast htotal
      refine lt_of_lt_of_le Int.zero_lt_one (Int.le_floor.mpr ?_)
      rw [Int.cast_one]
      linarith
    obtain ⟨buf, rng2, hok, hlenb, hsubb⟩ :=
      generateWords_ok (fallbackWords d) _ rng hpool hbuf
    have hbufne : buf ≠ [] := by
      have : 0 < buf.length := by omega
      exact List.length_pos.mp this
    obtain ⟨new, rng3, hrun, hlen, hprop⟩ :=
      paraLoop_spec (fallbackWords d) (max 1 (maxc / 6)) maxc.toNat hpool hwords hest
        lines.toNat buf rng2 [] hsubb (Or.inl hbufne)
    refine ⟨new, rng3, ?_, by omega, hprop⟩
    rw [generateParagraph, if_neg (not_le.mpr hlines), if_neg (not_le.mpr hmaxc)]
    simp only [hok, hrun, List.reverse_nil, List.nil_append]

/-- C9 witness: the three cases of `c9_paragraph_lines` at concrete
inputs. -/
theorem c9_witness :
    generateParagraph (fallbackWords .simple) 0 40 0 = .error "Lines must be positive" ∧
    generateParagraph (fallbackWords .simple) 3 0 0 = .error "Max line chars must be positive" ∧
    ∃ ls rng2, generateParagraph (fallbackWords .hard) 3 40 0 = .ok (ls, rng2) ∧
      ls.length = (3 : Int).toNat ∧
      ∀ line ∈ ls, line.length ≤ (40 : Int).toNat ∨ line ∈ fallbackWords .hard :=
  ⟨c9_paragraph_lines.1 _ 0 40 0 (by norm_num),
   c9_paragraph_lines.2.1 _ 3 0 0 (by norm_num) (by norm_num),
   c9_paragraph_lines.2.2 .hard 3 40 0 (by norm_num) (by norm_num)⟩

/-! ### Lemmas for the weighted-mixed allocation (C2) -/

theorem sum_map_div (l : List (Difficulty × ℚ)) (c : ℚ) :
    (l.map (fun p => p.2 / c)).sum = (l.map Prod.snd).sum / c := by
  induction l with
  | nil => simp
  | cons p rest ih => simp [ih, add_div]

theorem normalizedWeights_sum (weights : List (Difficulty × ℚ))
    (hW : (weights.map Prod.snd).sum ≠ 0) :
    ((normalizedWeights weights).map Prod.snd).sum = 1 := by
  rw [normalizedWeights, List.map_map]
  have h : (Prod.snd ∘ fun p : Difficulty × ℚ => (p.1, p.2 / (weights.map Prod.snd).sum))
      = fun p : Difficulty × ℚ => p.2 / (weights.map Prod.snd).sum := rfl
  rw [h, sum_map_div]
  exact div_self hW

theorem floor_fract_sum (tc : ℚ) (l : List (Difficulty × ℚ)) :
    ((l.map (fun p => ⌊tc * p.2⌋)).sum : ℚ) +
      (l.map (fun p => Int.fract (tc * p.2))).sum = tc * (l.map Prod.snd).sum := by
  induction l with
  | nil => simp
  | cons p rest ih =>
    simp only [List.map_cons, List.sum_cons]
    push_cast
    have hf := Int.floor_add_fract (tc * p.2)
    rw [mul_add]
    push_cast at ih
    linarith

theorem fract_list_nonneg (tc : ℚ) (l : List (Difficulty × ℚ)) :
    0 ≤ (l.map (fun p => Int.fract (tc * p.2))).sum := by
  induction l with
  | nil => simp
  | cons p rest ih =>
    simp only [List.map_cons, List.sum_cons]
    have := Int.fract_nonneg (tc * p.2)
    linarith

theorem fract_list_le_length (tc : ℚ) (l : List (Difficulty × ℚ)) :
    (l.map (fun p => Int.fract (tc * p.2))).sum ≤ (l.length : ℚ) := by
  induction l with
  | nil => simp
  | cons p rest ih =>
    simp only [List.map_cons, List.sum_cons, List.length_cons]
    have := le_of_lt (Int.fract_lt_one (tc * p.2))
    push_cast
    linarith

/-- The words lost to flooring: `remaining` equals the sum of the
fractional parts, hence lies in `[0, len(weights)]`. -/
theorem mixedRemaining_spec (weights : List (Difficulty × ℚ)) (tc : Int)
    (hW : (weights.map Prod.snd).sum ≠ 0) :
    0 ≤ mixedRemaining weights tc ∧
      mixedRemaining weights tc ≤ (weights.length : Int) := by
  have hbase : (mixedBaseCounts weights tc).map Prod.snd =
      (normalizedWeights weights).map (fun p => ⌊(tc : ℚ) * p.2⌋) := by
    rw [mixedBaseCounts, List.map_map]
    rfl
  have hkey := floor_fract_sum (tc : ℚ) (normalizedWeights weights)
  rw [normalizedWeights_sum weights hW, mul_one] at hkey
  have hnn := fract_list_nonneg (tc : ℚ) (normalizedWeights weights)
  have hle := fract_list_le_length (tc : ℚ) (normalizedWeights weights)
  have hlen : (normalizedWeights weights).length = weights.length := by
    rw [normalizedWeights, List.length_map]
  rw [hlen] at hle
  have hrem : ((mixedRemaining weights tc : Int) : ℚ) =
      ((normalizedWeights weights).map (fun p => Int.fract ((tc : ℚ) * p.2))).sum := by
    rw [mixedRemaining, hbase, Int.cast_sub]
    linarith
  constructor
  · have : (0 : ℚ) ≤ ((mixedRemaining weights tc : Int) : ℚ) := by
      rw [hrem]; exact hnn
    exact_mod_cast this
  · have : ((mixedRemaining weights tc : Int) : ℚ) ≤ (weights.length : ℚ) := by
      rw [hrem]; exact hle
    exact_mod_cast this

theorem sum_if_mem (winners : List Difficulty) (l : List (Difficulty × Int)) :
    ((l.map (fun p => (p.1, if p.1 ∈ winners then p.2 + 1 else p.2))).map Prod.snd).sum
      = (l.map Prod.snd).sum +
        ((l.map Prod.fst).countP (fun d => decide (d ∈ winners)) : Int) := by
  induction l with
  | nil => simp
  | cons p rest ih =>
    simp only [List.map_cons, List.sum_cons, List.countP_cons]
    by_cases h : p.1 ∈ winners
    · simp only [if_pos h, decide_eq_true_eq, h, if_true]
      push_cast
      omega
    · simp only [if_neg h, decide_eq_true_eq, h, if_false]
      push_cast
      omega

theorem countP_mem_eq_length (keys winners : List Difficulty)
    (hk : keys.Nodup) (hw : winners.Nodup) (hsub : winners ⊆ keys) :
    keys.countP (fun d => decide (d ∈ winners)) = winners.length := by
  rw [List.countP_eq_length_filter]
  have h1 : winners.Subperm (keys.filter (fun d => decide (d ∈ winners))) := by
    refine hw.subperm ?_
    intro w hwmem
    rw [List.mem_filter]
    exact ⟨hsub hwmem, by simpa using hwmem⟩
  have h2 : (keys.filter (fun d => decide (d ∈ winners))).Subperm winners := by
    refine (hk.filter _).subperm ?_
    intro w hwmem
    rw [List.mem_filter] at hwmem
    simpa using hwmem.2
  exact le_antisymm h2.length_le h1.length_le

theorem genMixedLoop_length (pools : Difficulty → List String)
    (hpools : ∀ d, pools d ≠ []) (firstAvailable : Difficulty) :
    ∀ (counts : List (Difficulty × Int)) (rng : Nat),
      (genMixedLoop pools firstAvailable counts rng).1.length
        = (counts.map (fun p => p.2.toNat)).sum := by
  intro counts
  induction counts with
  | nil => intro rng; rfl
  | cons p rest ih =>
    intro rng
    match p with
    | (d, c) =>
      by_cases hc : 0 < c
      · obtain ⟨ws, rng2, hok, hlenw, -⟩ :=
          generateWords_ok (pools d) c rng (hpools d) hc
        simp only [genMixedLoop, if_pos hc, hok, List.length_append, ih,
          List.map_cons, List.sum_cons]
        omega
      · have hc0 : c.toNat = 0 := by omega
        simp only [genMixedLoop, if_neg hc, ih, List.map_cons, List.sum_cons, hc0,
          Nat.zero_add]

theorem sum_toNat_of_nonneg (l : List (Difficulty × Int))
    (h : ∀ p ∈ l, 0 ≤ p.2) :
    (((l.map (fun p => p.2.toNat) : List Nat)).sum : Int) = (l.map Prod.snd).sum := by
  induction l with
  | nil => simp
  | cons p rest ih =>
    simp only [List.map_cons, List.sum_cons]
    have hp := h p (List.mem_cons_self p rest)
    have hrest := ih (fun q hq => h q (List.mem_cons_of_mem p hq))
    omega

/-- When the inputs are valid and — whenever flooring leaves words to
distribute — the fractional remainders are pairwise distinct, the
allocation succeeds, matches the largest-remainder apportionment of the
spec, sums to `total_count` and is entrywise non-negative. -/
theorem mixedAllocation_ok (weights : List (Difficulty × ℚ)) (tc : Int)
    (htc : 0 < tc) (hne : weights ≠ []) (hnonneg : ∀ p ∈ weights, 0 ≤ p.2)
    (hW : 0 < (weights.map Prod.snd).sum)
    (hkeys : (weights.map Prod.fst).Nodup)
    (hnotie : mixedRemaining weights tc = 0 ∨
      ((mixedFracParts weights tc).map Prod.fst).Nodup) :
    mixedAllocation weights tc = .ok (hamiltonShares weights tc) ∧
      ((hamiltonShares weights tc).map Prod.snd).sum = tc ∧
      (∀ p ∈ hamiltonShares weights tc, 0 ≤ p.2) := by
  have hWne : (weights.map Prod.snd).sum ≠ 0 := ne_of_gt hW
  have hanyneg : weights.any (fun p => decide (p.2 < 0)) = false := by
    rw [List.any_eq_false]
    intro p hp
    simpa using not_lt.mpr (hnonneg p hp)
  have hbasekeys : (mixedBaseCounts weights tc).map Prod.fst = weights.map Prod.fst := by
    rw [mixedBaseCounts, normalizedWeights, List.map_map, List.map_map]
    rfl
  have hbasenn : ∀ p ∈ mixedBaseCounts weights tc, 0 ≤ p.2 := by
    intro p hp
    rw [mixedBaseCounts, normalizedWeights, List.map_map] at hp
    obtain ⟨q, hq, hqe⟩ := List.mem_map.mp hp
    have hq2 : 0 ≤ q.2 := hnonneg q hq
    have : 0 ≤ (tc : ℚ) * (q.2 / (weights.map Prod.snd).sum) := by
      have h1 : (0 : ℚ) ≤ (tc : ℚ) := by exact_mod_cast le_of_lt htc
      have h2 : 0 ≤ q.2 / (weights.map Prod.snd).sum := div_nonneg hq2 (le_of_lt hW)
      exact mul_nonneg h1 h2
    rw [← hqe]
    exact Int.floor_nonneg.mpr this
  have hsumbase : ((mixedBaseCounts weights tc).map Prod.snd).sum =
      tc - mixedRemaining weights tc := by
    rw [mixedRemaining]; ring
  have hremspec := mixedRemaining_spec weights tc hWne
  by_cases hrem : 0 < mixedRemaining weights tc
  · -- leftover to distribute: the no-tie hypothesis rules the TypeError out
    have hnodup : ((mixedFracParts weights tc).map Prod.fst).Nodup := by
      rcases hnotie with h | h
      · omega
      · exact h
    have hfracsnd : (mixedFracParts weights tc).map Prod.snd = weights.map Prod.fst := by
      rw [mixedFracParts, normalizedWeights, List.map_map, List.map_map]
      rfl
    have hsortperm : (List.insertionSort fracDescLe (mixedFracParts weights tc)).Perm
        (mixedFracParts weights tc) := List.perm_insertionSort _ _
    have hsortsnd : ((List.insertionSort fracDescLe (mixedFracParts weights tc)).map
        Prod.snd).Perm (weights.map Prod.fst) := by
      rw [← hfracsnd]
      exact hsortperm.map Prod.snd
    have hwinsub : hamiltonWinners weights tc ⊆ weights.map Prod.fst := by
      rw [hamiltonWinners]
      intro w hw
      obtain ⟨q, hq, hqe⟩ := List.mem_map.mp hw
      have hq2 : q ∈ List.insertionSort fracDescLe (mixedFracParts weights tc) :=
        (List.take_sublist _ _).subset hq
      exact hsortsnd.subset (hqe ▸ List.mem_map_of_mem Prod.snd hq2)
    have hwinnodup : (hamiltonWinners weights tc).Nodup := by
      rw [hamiltonWinners]
      refine List.Nodup.sublist (List.Sublist.map Prod.snd (List.take_sublist _ _)) ?_
      exact hsortsnd.nodup_iff.mpr hkeys
    have hsortlen : (List.insertionSort fracDescLe (mixedFracParts weights tc)).length
        = weights.length := by
      rw [hsortperm.length_eq, mixedFracParts, normalizedWeights,
        List.length_map, List.length_map]
    have hwinlen : (hamiltonWinners weights tc).length
        = (mixedRemaining weights tc).toNat := by
      rw [hamiltonWinners, List.length_map, List.length_take, hsortlen]
      omega
    have halloc : mixedAllocation weights tc = .ok (hamiltonShares weights tc) := by
      rw [mixedAllocation, if_neg (by omega : ¬ tc ≤ 0), if_neg hne, hanyneg]
      rw [if_neg Bool.false_ne_true, if_neg hWne, if_pos hrem, if_pos hnodup,
        hamiltonShares, hamiltonWinners]
    refine ⟨halloc, ?_, ?_⟩
    · rw [hamiltonShares, sum_if_mem, hbasekeys, hsumbase]
      rw [countP_mem_eq_length (weights.map Prod.fst) _ hkeys hwinnodup hwinsub]
      rw [hwinlen]
      omega
    · intro p hp
      rw [hamiltonShares] at hp
      obtain ⟨q, hq, hqe⟩ := List.mem_map.mp hp
      have hq2 := hbasenn q hq
      rw [← hqe]
      by_cases hmem : q.1 ∈ hamiltonWinners weights tc
      · simp only [if_pos hmem]
        omega
      · simp only [if_neg hmem]
        exact hq2
  · -- nothing to distribute: the floors already exhaust the count
    have hrem0 : mixedRemaining weights tc = 0 := by omega
    have hwin0 : hamiltonWinners weights tc = [] := by
      rw [hamiltonWinners, hrem0]
      rfl
    have hident : hamiltonShares weights tc = mixedBaseCounts weights tc := by
      rw [hamiltonShares, hwin0]
      simp
    refine ⟨?_, ?_, ?_⟩
    · rw [mixedAllocation, if_neg (by omega : ¬ tc ≤ 0), if_neg hne, hanyneg]
      rw [if_neg Bool.false_ne_true, if_neg hWne, if_neg hrem, hident]
    · rw [hident, hsumbase, hrem0]
      ring
    · rw [hident]
      exact hbasenn

/-- `generate_mixed` after a successful allocation: per-difficulty
generation followed by the final shuffle. -/
theorem generateMixed_ok_of_alloc (pools : Difficulty → List String)
    (weights : List (Difficulty × ℚ)) (tc : Int) (rng : Nat)
    (counts : List (Difficulty × Int))
    (halloc : mixedAllocation weights tc = .ok counts) :
    generateMixed pools weights tc rng =
      .ok (shuffle (genMixedLoop pools (counts.headD (Difficulty.simple, 0)).1 counts rng).1
        (genMixedLoop pools (counts.headD (Difficulty.simple, 0)).1 counts rng).2) := by
  unfold generateMixed
  rw [halloc]

/-- C2 counterexample: `generate_mixed({SIMPLE: 0.5, MEDIUM: 0.5}, 5)` has
a positive leftover (floors give 2+2 of 5) and two EQUAL fractional
remainders, so `fractional_parts.sort(reverse=True)` compares the
`(float, Difficulty)` tuples beyond their equal first components and
raises `TypeError` (`Difficulty` is unordered) instead of returning 5
words. -/
theorem c2_counterexample :
    generateMixed fallbackWords
        [(Difficulty.simple, 1 / 2), (Difficulty.medium, 1 / 2)] 5 0 =
      .error "TypeError: '<' not supported between instances of Difficulty" := by
  with_unfolding_all rfl

/-- C2 (amended): `generate_mixed(weights, total_count)` raises
Invalid-Input on a non-positive total, empty weights, a negative weight or
a zero weight sum; on valid input it implements largest-remainder
(Hamilton) apportionment — each difficulty's share is
`floor(total_count × normalized_weight)` and the leftover goes one word at
a time to the largest fractional remainders — and returns exactly
`total_count` words, PROVIDED that either the floors exhaust the total or
the compared fractional remainders are pairwise distinct; on a tie with a
positive leftover the descending sort's tuple comparison falls back to the
unordered `Difficulty` enum and the call fails with a `TypeError` rather
than returning words. -/
theorem c2_mixed_largest_remainder :
    (∀ (pools : Difficulty → List String) (weights : List (Difficulty × ℚ))
        (tc : Int) (rng : Nat), tc ≤ 0 →
        generateMixed pools weights tc rng = .error "Total count must be positive") ∧
    (∀ (pools : Difficulty → List String) (tc : Int) (rng : Nat), 0 < tc →
        generateMixed pools [] tc rng = .error "Weights dictionary cannot be empty") ∧
    (∀ (pools : Difficulty → List String) (weights : List (Difficulty × ℚ))
        (tc : Int) (rng : Nat), 0 < tc → weights ≠ [] →
        (∃ p ∈ weights, p.2 < 0) →
        generateMixed pools weights tc rng = .error "Weight cannot be negative") ∧
    (∀ (pools : Difficulty → List String) (weights : List (Difficulty × ℚ))
        (tc : Int) (rng : Nat), 0 < tc → weights ≠ [] → (∀ p ∈ weights, 0 ≤ p.2) →
        (weights.map Prod.snd).sum = 0 →
        generateMixed pools weights tc rng = .error "Total weight cannot be zero") ∧
    (∀ (weights : List (Difficulty × ℚ)) (tc : Int) (rng : Nat),
        0 < tc → weights ≠ [] → (∀ p ∈ weights, 0 ≤ p.2) →
        0 < (weights.map Prod.snd).sum → (weights.map Prod.fst).Nodup →
        (mixedRemaining weights tc = 0 ∨
          ((mixedFracParts weights tc).map Prod.fst).Nodup) →
        mixedAllocation weights tc = .ok (hamiltonShares weights tc) ∧
        ∃ ws rng2, generateMixed fallbackWords weights tc rng = .ok (ws, rng2) ∧
          ws.length = tc.toNat) := by
  have herr : ∀ (pools : Difficulty → List String) (weights : List (Difficulty × ℚ))
      (tc : Int) (rng : Nat) (e : String),
      mixedAllocation weights tc = .error e →
      generateMixed pools weights tc rng = .error e := by
    intro pools weights tc rng e h
    unfold generateMixed
    rw [h]
  refine ⟨?_, ?_, ?_, ?_, ?_⟩
  · intro pools weights tc rng h
    refine herr pools weights tc rng _ ?_
    rw [mixedAllocation, if_pos h]
  · intro pools tc rng h
    refine herr pools [] tc rng _ ?_
    rw [mixedAllocation, if_neg (by omega : ¬ tc ≤ 0), if_pos rfl]
  · intro pools weights tc rng htc hne hneg
    refine herr pools weights tc rng _ ?_
    obtain ⟨p, hp, hplt⟩ := hneg
    have hany : weights.any (fun p => decide (p.2 < 0)) = true :=
      List.any_eq_true.mpr ⟨p, hp, by simpa using hplt⟩
    rw [mixedAllocation, if_neg (by omega : ¬ tc ≤ 0), if_neg hne, hany, if_pos rfl]
  · intro pools weights tc rng htc hne hnonneg hzero
    refine herr pools weights tc rng _ ?_
    have hanyneg : weights.any (fun p => decide (p.2 < 0)) = false := by
      rw [List.any_eq_false]
      intro p hp
      simpa using not_lt.mpr (hnonneg p hp)
    rw [mixedAllocation, if_neg (by omega : ¬ tc ≤ 0), if_neg hne, hanyneg,
      if_neg Bool.false_ne_true, if_pos hzero]
  · intro weights tc rng htc hne hnonneg hW hkeys hnotie
    obtain ⟨halloc, hsum, hnn⟩ :=
      mixedAllocation_ok weights tc htc hne hnonneg hW hkeys hnotie
    have hgen := generateMixed_ok_of_alloc fallbackWords weights tc rng _ halloc
    refine ⟨halloc,
      (shuffle (genMixedLoop fallbackWords
          ((hamiltonShares weights tc).headD (Difficulty.simple, 0)).1
          (hamiltonShares weights tc) rng).1
        (genMixedLoop fallbackWords
          ((hamiltonShares weights tc).headD (Difficulty.simple, 0)).1
          (hamiltonShares weights tc) rng).2).1,
      (shuffle (genMixedLoop fallbackWords
          ((hamiltonShares weights tc).headD (Difficulty.simple, 0)).1
          (hamiltonShares weights tc) rng).1
        (genMixedLoop fallbackWords
          ((hamiltonShares weights tc).headD (Difficulty.simple, 0)).1
          (hamiltonShares weights tc) rng).2).2, ?_, ?_⟩
    · rw [hgen]
    · rw [(shuffle_perm _ _).length_eq]
      rw [genMixedLoop_length fallbackWords fallbackWords_ne_nil]
      have hcast := sum_toNat_of_nonneg (hamiltonShares weights tc) hnn
      have hfin : ((((hamiltonShares weights tc).map (fun p => p.2.toNat) : List Nat)).sum : Int)
          = tc := by rw [hcast, hsum]
      omega

/-- C2 witness: the amended theorem at the spec's own example — weights
`{MEDIUM: 0.5, HARD: 0.3, EXTRA_HARD: 0.2}` with 100 words (floors 50/30/20
leave no remainder) — plus a negative-weight rejection. -/
theorem c2_witness :
    (mixedAllocation [(Difficulty.medium, 1 / 2), (Difficulty.hard, 3 / 10),
        (Difficulty.extra_hard, 1 / 5)] 100 =
      .ok (hamiltonShares [(Difficulty.medium, 1 / 2), (Difficulty.hard, 3 / 10),
        (Difficulty.extra_hard, 1 / 5)] 100) ∧
    (∃ ws rng2, generateMixed fallbackWords
        [(Difficulty.medium, 1 / 2), (Difficulty.hard, 3 / 10),
          (Difficulty.extra_hard, 1 / 5)] 100 0 = .ok (ws, rng2) ∧
        ws.length = (100 : Int).toNat)) ∧
    generateMixed fallbackWords [(Difficulty.simple, -1 / 2)] 10 0 =
      .error "Weight cannot be negative" :=
  ⟨c2_mixed_largest_remainder.2.2.2.2
      [(Difficulty.medium, 1 / 2), (Difficulty.hard, 3 / 10),
        (Difficulty.extra_hard, 1 / 5)] 100 0
      (by norm_num) (by simp) (by with_unfolding_all decide)
      (by with_unfolding_all decide) (by with_unfolding_all decide)
      (by left; with_unfolding_all decide),
   c2_mixed_largest_remainder.2.2.1 fallbackWords [(Difficulty.simple, -1 / 2)] 10 0
      (by norm_num) (by simp)
      ⟨(Difficulty.simple, -1 / 2), by simp, by with_unfolding_all decide⟩⟩

/-- C7 (code bug): `load_file` initialises `words = []` OUTSIDE the
encoding retry loop (line 42), so entries parsed by an encoding attempt
that failed part-way through the stream are retained when the next
encoding is tried.  For a file delivered by the buffered reader as the
two reads `b"hello\n"` and `b"\xff"` (any file longer than one 8192-byte
read whose first invalid UTF-8 byte is in a later read): the utf-8 and
utf-8-sig attempts each yield the line `hello` before failing on `0xff`,
latin-1 then decodes the whole file, and `load_file` returns
`["hello", "hello", "hello", "ÿ"]` — the claim instead requires exactly
the first successful encoding's parse, `["hello", "ÿ"]`. -/
theorem c7_encoding_retry_leak :
    loadFile [[104, 101, 108, 108, 111, 10], [255]] false =
      .ok ["hello", "hello", "hello", "ÿ"] ∧
    ((attemptLines .latin1 [[104, 101, 108, 108, 111, 10], [255]]).1.map
        (processLine false)).flatten = ["hello", "ÿ"] ∧
    (attemptLines .latin1 [[104, 101, 108, 108, 111, 10], [255]]).2 = true ∧
    (attemptLines .utf8 [[104, 101, 108, 108, 111, 10], [255]]).2 = false := by
  refine ⟨?_, ?_, ?_, ?_⟩ <;> with_unfolding_all rfl

/-- C1: two `WordGenerator` instances constructed with the same integer
seed over identical word sources produce identical outputs, call for call,
through any identical sequence of calls to the five generation methods —
every method is a deterministic function of the seed and the preceding
call sequence. -/
theorem c1_seed_determinism :
    ∀ (seed : Int) (pools : Difficulty → List String) (calls : List GenCall)
      (g1 g2 : WordGeneratorState),
      g1 = mkWordGenerator seed pools → g2 = mkWordGenerator seed pools →
      runCalls g1 calls = runCalls g2 calls := by
  intro seed pools calls g1 g2 h1 h2
  rw [h1, h2]

/-- C1 witness: replaying a concrete mixed call sequence on two instances
built from seed 42 over the built-in pools. -/
theorem c1_witness :
    runCalls (mkWordGenerator 42 fallbackWords)
        [GenCall.words .simple 5, GenCall.forTime .medium 1,
         GenCall.forSession .hard 60 30] =
      runCalls (mkWordGenerator 42 fallbackWords)
        [GenCall.words .simple 5, GenCall.forTime .medium 1,
         GenCall.forSession .hard 60 30] :=
  c1_seed_determinism 42 fallbackWords _ _ _ rfl rfl

/-- C4: while a session is active, `start_session` and
`start_time_based_session` both return false and leave the engine
unchanged; `end_session` with no active session returns nothing and
invokes no session-end callback. -/
theorem c4_single_active_session :
    (∀ (e : EngineState) (user : String) (mode : GameMode)
        (diff : DifficultyLevel) (dur : Int) (text : String) (now : Int),
        isSessionActive e = true →
        startSession e user mode diff dur text now = (false, e)) ∧
    (∀ (e : EngineState) (user : String) (mode : GameMode)
        (diff : DifficultyLevel) (minutes : Int) (text : String) (now : Int),
        isSessionActive e = true →
        startTimeBasedSession e user mode diff minutes text now = (false, e)) ∧
    (∀ (e : EngineState) (now : Int), isSessionActive e = false →
        endSession e now = (none, e)) := by
  refine ⟨?_, ?_, ?_⟩
  · intro e user mode diff dur text now h
    rw [startSession, if_pos h]
  · intro e user mode diff minutes text now h
    rw [startTimeBasedSession, if_pos h]
  · intro e now h
    cases hc : e.currentSession with
    | none => simp [endSession, hc]
    | some s =>
      have hs : s.isActive = false := by
        simp [isSessionActive, hc] at h
        exact h
      simp [endSession, hc, hs]

/-- `sortScores` orders its output by `(wpm DESC, accuracy DESC)`. -/
theorem sortScores_sorted (rows : List ScoreRecord) :
    List.Sorted rankLe (sortScores rows) :=
  List.sorted_insertionSort rankLe rows

/-- `sortScores` permutes its input. -/
theorem sortScores_perm (rows : List ScoreRecord) :
    (sortScores rows).Perm rows :=
  List.perm_insertionSort rankLe rows

/-- Well-formedness the database maintains: rows are pairwise distinct and
every row's `id` was assigned by a past value of the autoincrement
counter. -/
def dbWF (db : ScoresDb) : Prop :=
  db.rows.Nodup ∧ ∀ r ∈ db.rows, ∃ i, r.id = some i ∧ i < db.nextId

theorem emptyDb_wf : dbWF emptyDb :=
  ⟨List.nodup_nil, fun r hr => absurd hr (List.not_mem_nil r)⟩

theorem afterInsert_nodup (db : ScoresDb) (s : ScoreRecord) (hwf : dbWF db) :
    (db.rows ++ [{ s with id := some db.nextId }]).Nodup := by
  rw [List.nodup_append]
  refine ⟨hwf.1, List.nodup_singleton _, ?_⟩
  intro r hr hmem
  obtain ⟨i, hid, hlt⟩ := hwf.2 r hr
  rw [List.mem_singleton] at hmem
  have hid2 : r.id = some db.nextId := by rw [hmem]
  rw [hid] at hid2
  have := Option.some_injective _ hid2
  omega

/-- The row a score of the 55-insert scenario is saved as. -/
def mkScenarioRow (i : Nat) : ScoreRecord :=
  { id := none
    userName := "user"
    wpm := (i : ℚ)
    accuracy := 50
    level := "beginner"
    mode := "practice"
    duration := 60
    totalCharacters := 100
    correctCharacters := 90 }

/-- 55 saves with strictly increasing WPM, starting from a fresh table. -/
def scenarioDb : ScoresDb :=
  (List.range 55).foldl (fun db i => saveScore db (mkScenarioRow i)) emptyDb

set_option maxRecDepth 40000 in
/-- C3: after every `save_score` the table keeps at most 50 rows, and every
surviving row ranks at least as high (by `wpm DESC, accuracy DESC`) as
every deleted row; 55 inserts with strictly increasing WPM leave exactly
the rows with the 50 highest WPMs; `get_leaderboard` output is sorted in
non-increasing `(wpm, accuracy)` order.  (`dbWF` — distinct rows with
storage-assigned ids — is the invariant the autoincrement column provides
and `save_score` preserves.) -/
theorem c3_top50_retention :
    (∀ (db : ScoresDb) (s : ScoreRecord), dbWF db → dbWF (saveScore db s)) ∧
    (∀ (db : ScoresDb) (s : ScoreRecord), dbWF db →
        (saveScore db s).rows.length ≤ 50) ∧
    (∀ (db : ScoresDb) (s : ScoreRecord) (x y : ScoreRecord),
        x ∈ (saveScore db s).rows →
        y ∈ db.rows ++ [{ s with id := some db.nextId }] →
        y ∉ (sortScores (db.rows ++ [{ s with id := some db.nextId }])).take 50 →
        rankLe x y) ∧
    scenarioDb.rows.map (fun r => r.wpm) =
      (List.range 50).map (fun i => ((i + 5 : Nat) : ℚ)) ∧
    (∀ (db : ScoresDb) (mode : Option String) (limit : Nat),
        List.Pairwise rankLe (getLeaderboard db mode limit)) := by
  have hmem_filter :
      ∀ (db : ScoresDb) (s : ScoreRecord) (x : ScoreRecord),
        x ∈ (saveScore db s).rows →
        x ∈ (sortScores (db.rows ++ [{ s with id := some db.nextId }])).take 50 := by
    intro db s x hx
    have := List.of_mem_filter hx
    exact of_decide_eq_true this
  refine ⟨?_, ?_, ?_, ?_, ?_⟩
  · intro db s hwf
    constructor
    · exact (afterInsert_nodup db s hwf).filter _
    · intro r hr
      have hr2 := List.mem_of_mem_filter hr
      rcases List.mem_append.mp hr2 with hold | hnew
      · obtain ⟨i, hid, hlt⟩ := hwf.2 r hold
        exact ⟨i, hid, by simp only [saveScore]; omega⟩
      · rw [List.mem_singleton] at hnew
        refine ⟨db.nextId, by rw [hnew], by simp only [saveScore]; omega⟩
  · intro db s hwf
    have hnd : (saveScore db s).rows.Nodup := (afterInsert_nodup db s hwf).filter _
    have hsub : (saveScore db s).rows ⊆
        (sortScores (db.rows ++ [{ s with id := some db.nextId }])).take 50 :=
      fun x hx => hmem_filter db s x hx
    have := (hnd.subperm hsub).length_le
    have hlen : ((sortScores (db.rows ++ [{ s with id := some db.nextId }])).take 50).length ≤ 50 := by
      rw [List.length_take]
      omega
    omega
  · intro db s x y hx hy hyout
    set after := db.rows ++ [{ s with id := some db.nextId }] with hafter
    have hxin : x ∈ (sortScores after).take 50 := hmem_filter db s x hx
    have hymem : y ∈ sortScores after := (sortScores_perm after).mem_iff.mpr hy
    have hydrop : y ∈ (sortScores after).drop 50 := by
      rcases List.mem_append.mp ((List.take_append_drop 50 (sortScores after)) ▸ hymem) with h | h
      · exact absurd h hyout
      · exact h
    have hsorted : List.Pairwise rankLe ((sortScores after).take 50 ++ (sortScores after).drop 50) := by
      rw [List.take_append_drop]
      exact sortScores_sorted after
    exact (List.pairwise_append.mp hsorted).2.2 x hxin y hydrop
  · with_unfolding_all decide
  · intro db mode limit
    exact List.Pairwise.sublist (List.take_sublist limit _)
      (sortScores_sorted _)

/-- C4 witness: an engine with an active session refuses both start
operations, and an idle engine's `end_session` returns nothing. -/
theorem c4_witness :
    startSession activeEngine "u" .practice .beginner 60 "t" 7 =
      (false, activeEngine) ∧
    startTimeBasedSession activeEngine "u" .practice .beginner 1 "t" 7 =
      (false, activeEngine) ∧
    endSession idleEngine 7 = (none, idleEngine) :=
  ⟨c4_single_active_session.1 activeEngine "u" .practice .beginner 60 "t" 7 rfl,
   c4_single_active_session.2.1 activeEngine "u" .practice .beginner 1 "t" 7 rfl,
   c4_single_active_session.2.2 idleEngine 7 rfl⟩

end Speed
